import Mathlib

/-!
Verification of the survey aggregation engine of `functions/api/survey-data.js`
(the final revision of the handler; earlier revisions of the same file provide
`countNonEmpty`, `sortWithOtherLast` and `countDistinctByRowish`, of which the
first is also embedded below).

Strings are modelled as Lean `String`s.  The JS `toLowerCase`/
`toUpperCase` are modelled on the ASCII range (all canonical labels and
matcher needles in the source are Latin text, where the two agree), `trim`
strips ASCII whitespace, and `Math.round((count / total) * 100)` is modelled
as exact half-up rounding of the rational `100 * count / total` (`pct` below).
`Math.random()` draws are modelled by an explicit parameter `ρ : Nat → String`
giving the draw used for the row at each index.
-/

namespace Survey

/-- ASCII whitespace, modelling the characters JS `trim` removes from the
cell texts that occur here. -/
def isJsWs (c : Char) : Bool :=
  c = ' ' || c = '\t' || c = '\n' || c = '\r' || c = '\x0b' || c = '\x0c'

/-- `String.prototype.trim`. -/
def jsTrim (s : String) : String :=
  ⟨((s.data.dropWhile isJsWs).reverse.dropWhile isJsWs).reverse⟩

/-- `String.prototype.toLowerCase` (ASCII model). -/
def lowerStr (s : String) : String := ⟨s.data.map Char.toLower⟩

/-- Helper for `containsSub`: does `needle` occur inside the second list? -/
def containsList (needle : List Char) : List Char → Bool
  | [] => needle.isEmpty
  | c :: rest => needle.isPrefixOf (c :: rest) || containsList needle rest

/-- `hay.indexOf(needle) !== -1`, i.e. substring containment. -/
def containsSub (hay needle : String) : Bool :=
  containsList needle.data hay.data

/-- `String.prototype.split(c)`: split on every occurrence of `c`, keeping
empty pieces (`"a,,b"` gives three pieces, `""` gives one empty piece). -/
def splitChar (c : Char) : List Char → List (List Char)
  | [] => [[]]
  | x :: xs =>
    if x = c then [] :: splitChar c xs
    else
      match splitChar c xs with
      | [] => [[x]]
      | p :: ps => (x :: p) :: ps

/-- Add an element to a JS `Set` (insertion-ordered, first occurrence kept). -/
def setAdd {α : Type} [DecidableEq α] (l : List α) (k : α) : List α :=
  if k ∈ l then l else l ++ [k]

/-- `Array.from(new Set(out))`: deduplicate keeping first occurrences. -/
def jsDedup {α : Type} [DecidableEq α] (l : List α) : List α :=
  l.foldl setAdd []

/-- Read a key of a JS object used as a counter map (`map[k] || 0` style). -/
def lookupD : List (String × Nat) → String → Nat → Nat
  | [], _, d => d
  | p :: ps, k, d => if p.1 = k then p.2 else lookupD ps k d

/-- `map[k] = (map[k] || 0) + 1` on a JS object: bump in place, append a new
key at the end of the insertion order when absent.  (Also models
`counts[h] += 1` at call sites where `h` was initialised to `0`.) -/
def bump : List (String × Nat) → String → List (String × Nat)
  | [], k => [(k, 1)]
  | p :: ps, k => if p.1 = k then (p.1, p.2 + 1) :: ps else p :: bump ps k

/-- `Array.prototype.join(sep)`. -/
def joinSep (sep : String) : List String → String
  | [] => ""
  | [x] => x
  | x :: y :: xs => x ++ sep ++ joinSep sep (y :: xs)

/-- JS `\w`: `[A-Za-z0-9_]`. -/
def isWordChar (c : Char) : Bool := c.isAlpha || c.isDigit || c = '_'

/-- Character class `[:\-\s]` of the "plain Other" regexes. -/
def isOtherPad (c : Char) : Bool := c = ':' || c = '-' || isJsWs c

/-- Character class `[-–—:\s]` of the leading-dash stripper. -/
def isDashPad (c : Char) : Bool :=
  c = '-' || c = '–' || c = '—' || c = ':' || isJsWs c

/-- `/^other\b[:\-\s]*$/i.test s`: the string is the word "other" (any case)
followed only by `:`/`-`/whitespace padding.  (The `\b` is implied by the
padding class, whose members are all non-word characters.) -/
def otherOnlyTest (s : String) : Bool :=
  "other".data.isPrefixOf (lowerStr s).data && ((lowerStr s).data.drop 5).all isOtherPad

/-- `/^\(empty\)|^na$/i.test s`: starts with "(empty)" or equals "na". -/
def emptyNaTest (s : String) : Bool :=
  "(empty)".data.isPrefixOf (lowerStr s).data || lowerStr s == "na"

/-- `t.replace(/^other\b[:\-\s]*/i, "")`: strip a leading "other" (any case,
at a word boundary) together with the following `:`/`-`/whitespace run. -/
def stripLeadOther (t : String) : String :=
  if ("other".data.isPrefixOf (lowerStr t).data
      && (match t.data.drop 5 with
          | [] => true
          | c :: _ => ! isWordChar c)) then
    ⟨(t.data.drop 5).dropWhile isOtherPad⟩
  else t

/-- `t.replace(/^[-–—:\s]+/, "")`. -/
def stripDashPad (t : String) : String := ⟨t.data.dropWhile isDashPad⟩

/-- `t.replace(/^"(.+)"$/, "$1")`: drop a matching pair of surrounding double
quotes (`.` does not match line terminators, hence the newline condition). -/
def unquote (t : String) : String :=
  if (decide (3 ≤ t.data.length) && t.data.head? == some '"' && t.data.getLast? == some '"'
      && ((t.data.drop 1).dropLast.all fun c => c != '\n' && c != '\r')) then
    ⟨(t.data.drop 1).dropLast⟩
  else t

/-- One iteration of the `cleanOtherTextList` loop body: the cleaned text the
respondent fragment contributes, or `none` when the body returns early or
skips the push. -/
def cleanOneOther (s : String) : Option String :=
  let t := jsTrim s
  if t = "" then none
  else if otherOnlyTest t then none
  else
    let t2 := jsTrim (unquote (stripDashPad (stripLeadOther t)))
    if t2 ≠ "" && ! emptyNaTest t2 then some t2 else none

/-- `cleanOtherTextList`: clean every fragment (the `forEach` push loop is a
`filterMap`), then deduplicate via `Array.from(new Set(out))`. -/
def cleanOtherTextList (list : List String) : List String :=
  jsDedup (list.filterMap cleanOneOther)

/-- The `ALIASES` table (object literal keyed by canonical label). -/
def ALIASES (opt : String) : List String :=
  if opt = "AI for campaign planning & briefing" then
    ["AI for campaign planning and briefing", "campaign planning & briefing"]
  else if opt = "AI assistants & internal tooling" then
    ["AI assistants and internal tooling", "assistants & tooling"]
  else if opt = "AI for creator discovery" then
    ["creator discovery", "ai for discovery"]
  else if opt = "AI and the future of creator platforms" then
    ["future of creator platforms", "creator platforms (future)"]
  else if opt = "AI for reviewing creator content" then
    ["reviewing creator content", "content review (ai)"]
  else []

/-- `consumed.replace(re, "")` where `re` is the canonical option text,
regex-escaped, with the `i` flag: remove the first case-insensitive
occurrence of `pat`, if any. -/
def removeFirstCI : List Char → List Char → List Char
  | [], _ => []
  | c :: rest, pat =>
    if (pat.map Char.toLower).isPrefixOf ((c :: rest).map Char.toLower) then
      (c :: rest).drop pat.length
    else c :: removeFirstCI rest pat

structure MatchResult where
  hits : List String
  leftovers : List String
  deriving DecidableEq, Repr

/-- `matchCanonicalOptions`: test each canonical option (and its aliases)
against the lowercased answer; on a hit add the option to the `hits` set and
delete its first occurrence from the working remainder; finally split the
remainder on commas into trimmed leftover fragments, dropping short and
placeholder ones. -/
def matchCanonicalOptions (answer : String) (canonicalList : List String) : MatchResult :=
  let lower := lowerStr answer
  let hc := canonicalList.foldl
    (fun (acc : List String × String) opt =>
      let names := opt :: ALIASES opt
      if names.any fun name => containsSub lower (lowerStr name) then
        (setAdd acc.1 opt, ⟨removeFirstCI acc.2.data opt.data⟩)
      else acc)
    ([], answer)
  { hits := hc.1
    leftovers := ((splitChar ',' hc.2.data).map fun l => jsTrim ⟨l⟩).filter
      fun s => decide (1 < s.length) && ! otherOnlyTest s && ! emptyNaTest s }

/-- `s.charAt(0).toUpperCase() + s.slice(1)` with the empty-string guard. -/
def capFirst (s : String) : String :=
  match s.data with
  | [] => ""
  | c :: cs => ⟨Char.toUpper c :: cs⟩

/-- `normalizeTool` of the final revision. -/
def normalizeTool (s : String) : String :=
  let t := jsTrim (lowerStr s)
  if t = "" then ""
  else if t = "gpt" || containsSub t "chat gpt" || containsSub t "chatgpt"
      || containsSub t "openai" then "ChatGPT"
  else if containsSub t "claude" then "Claude"
  else if containsSub t "gemini" || containsSub t "bard" then "Gemini"
  else if containsSub t "gamma" then "Gamma"
  else if containsSub t "don’t have" || containsSub t "dont have" || t = "none"
      || containsSub t "no tool" then "None"
  else capFirst s

/-! ### The declarative display configuration (`DISPLAY_CONFIG`) -/

inductive CfgKey
  | aiUsage | goToTool | confidence | curiosity | topPriority | creatorAreas
  deriving DecidableEq, Repr

def cfgTitle : CfgKey → String
  | .aiUsage =>
    "Which of the following best describes how you\x27re using AI in your work today? (select all that apply)"
  | .goToTool => "What\x27s your go-to AI tool (if any) in your current workflow?"
  | .confidence => "How confident are you in using AI tools in your creator marketing work?"
  | .curiosity => "Which areas of AI are you most curious to learn more about this season? (pick top 3)"
  | .topPriority => "What\x27s your top priority for this season? (pick 1)"
  | .creatorAreas => "Which areas of creator marketing would you be most interested in testing AI tools for?"

def cfgType : CfgKey → String
  | .aiUsage => "multiple_choice"
  | .goToTool => "single_choice"
  | .confidence => "scale"
  | .curiosity => "multiple_choice"
  | .topPriority => "single_choice"
  | .creatorAreas => "multiple_choice"

def orderAiUsage : List String :=
  ["Discovering or researching creators",
   "Drafting or reviewing creative briefs",
   "Writing emails, captions, or campaign copy",
   "Analyzing campaign results",
   "Generating images or video",
   "I\x27m not using AI at work yet"]

def scaleConfidence : List String := ["1", "2", "3", "4", "5"]

def orderCuriosity : List String :=
  ["AI for creator discovery",
   "AI for campaign planning & briefing",
   "AI for reviewing creator content",
   "AI-generated content (video, images, voice)",
   "AI assistants & internal tooling",
   "Ethical implications / disclosure guidelines",
   "AI and brand safety",
   "How creators themselves are using AI",
   "AI and the future of creator platforms"]

def orderTopPriority : List String :=
  ["Learning from guest speakers",
   "Swapping tactics/tools with peers",
   "Discovering new AI use cases",
   "Connecting 1:1 with others in similar roles",
   "Having a regular space to reflect and stay sharp"]

def orderCreatorAreas : List String :=
  ["Creator Discovery & Vetting",
   "Brief Generation & Campaign Planning",
   "Outreach & Communication",
   "Content Review & Brand Safety",
   "Payment, Contracting & Legal Automation",
   "Performance Analysis & Reporting",
   "Competitor Monitoring & Trend Tracking",
   "Creative Co-Pilots for UGC",
   "Marketplace Optimization (e.g. TikTok Shop, Amazon Influencer)",
   "Internal Knowledge Systems & Institutional Memory"]

/-- The header matcher needles of `indexByHeader` in `buildQuestionsFromHeadersAndRows`. -/
def needleAiUsage : String := "Which of the following best describes"

def needleGoToTool : String := "What\x27s your go-to AI tool"

def needleConfidence : String := "How confident are you"

def needleCuriosity : String := "Which areas of AI are you most curious"

def needleTopPriority : String := "What\x27s your top priority for this season"

def needleCreatorAreas : String := "Which areas of creator marketing"

/-! ### Grid access, header resolution and respondent keys -/

/-- `String(row[i] || "")`: out-of-range or negative indices give `""`. -/
def rowGet (r : List String) (i : Int) : String :=
  if i < 0 then "" else r.getD i.toNat ""

/-- The local helper `get(row, i)`: the trimmed cell text. -/
def getCell (r : List String) (i : Int) : String := jsTrim (rowGet r i)

/-- `indexByHeader` for a single needle: first header whose lowercased text
contains the lowercased needle, else `-1`. -/
def findHeaderIdx (headers : List String) (needle : String) : Int :=
  match headers.findIdx? fun h => containsSub (lowerStr h) (lowerStr needle) with
  | some i => (i : Int)
  | none => -1

/-- `findRespondentIdIndex`. -/
def findRespondentIdIndex (headers : List String) : Int :=
  match headers.findIdx? fun h => containsSub (lowerStr h) "respondent id" with
  | some i => (i : Int)
  | none => -1

/-- The `rid` computed inside `respondentsWhoAnswered`. -/
def ridOf (respondentIdx : Int) (r : List String) : String :=
  if 0 ≤ respondentIdx then jsTrim (rowGet r respondentIdx) else ""

/-- `set.add(rid || "__row_" + Math.random())`: the key added for a row, with
the random draw for row `i` supplied by `ρ`. -/
def respondentKey (respondentIdx : Int) (ρ : Nat → String) (i : Nat) (r : List String) : String :=
  let rid := ridOf respondentIdx r
  if rid ≠ "" then rid else "__row_" ++ ρ i

/-- The `rows.forEach` loop of `respondentsWhoAnswered`, over index-tagged
rows, threading the insertion-ordered key set. -/
def respondentKeysAux (colIdx respondentIdx : Int) (ρ : Nat → String) :
    List (Nat × List String) → List String → List String
  | [], acc => acc
  | (i, r) :: rest, acc =>
    if getCell r colIdx ≠ "" then
      respondentKeysAux colIdx respondentIdx ρ rest
        (setAdd acc (respondentKey respondentIdx ρ i r))
    else respondentKeysAux colIdx respondentIdx ρ rest acc

/-- `respondentsWhoAnswered` (the resulting `Set`, as an insertion-ordered
duplicate-free list). -/
def respondentsWhoAnswered (rows : List (List String)) (colIdx respondentIdx : Int)
    (ρ : Nat → String) : List String :=
  if colIdx < 0 then [] else respondentKeysAux colIdx respondentIdx ρ rows.enum []

/-- `respondentsWhoAnswered(...).size`. -/
def answeredCount (rows : List (List String)) (colIdx respondentIdx : Int)
    (ρ : Nat → String) : Nat :=
  (respondentsWhoAnswered rows colIdx respondentIdx ρ).length

/-! ### Percentages, buckets and questions -/

/-- `Math.round((count / total) * 100)` as exact half-up rounding of the
rational, together with the `total > 0 ? ... : 0` guard used at the guarded
call sites (the unguarded call sites are only reached with `total > 0`). -/
def pct (count total : Nat) : Nat :=
  if total = 0 then 0 else (200 * count + total) / (2 * total)

structure Bucket where
  text : String
  count : Nat
  percentage : Nat
  deriving DecidableEq, Repr

structure Question where
  question : String
  type : String
  responses : List Bucket
  total_responses : Nat
  other_responses : Option String
  deriving DecidableEq, Repr

/-- The comparator `(a, b) => b.count - a.count`: `a` sorts no later than `b`
iff `b.count ≤ a.count`.  JS `Array.prototype.sort` is a stable sort, which
for a total preorder is computed by `List.insertionSort`. -/
def countGe (a b : Bucket) : Prop := b.count ≤ a.count

instance : DecidableRel countGe := fun a b => Nat.decLe b.count a.count

instance : IsTotal Bucket countGe := ⟨fun a b => Nat.le_total b.count a.count⟩

instance : IsTrans Bucket countGe := ⟨fun _ _ _ hab hbc => Nat.le_trans hbc hab⟩

/-- The canonical-order loop of `pushOrderedWithOther`: one bucket per label
of `order` with a positive tally, in list order. -/
def orderedResponses (countsMap : List (String × Nat)) (total : Nat)
    (order : List String) : List Bucket :=
  order.foldl (fun acc label =>
    let count := lookupD countsMap label 0
    if 0 < count then acc ++ [⟨label, count, pct count total⟩] else acc) []

/-- `pushOrderedWithOther`, returning the pushed question (or nothing, when
the early `return` fires).  The `!cfg` part of the guard never fires: every
`CfgKey` is a key of `DISPLAY_CONFIG`. -/
def pushOrderedWithOther (cfgKey : CfgKey) (countsMap : List (String × Nat))
    (otherList : List String) (respondentsTotal : Nat) (order : List String) : List Question :=
  if respondentsTotal = 0 then []
  else
    let responses := orderedResponses countsMap respondentsTotal order
    let verbatim := otherList.filter fun s => s ≠ ""
    [{ question := cfgTitle cfgKey
       type := cfgType cfgKey
       responses :=
         if verbatim ≠ [] then
           responses ++ [⟨"Other", verbatim.length, pct verbatim.length respondentsTotal⟩]
         else responses
       total_responses := respondentsTotal
       other_responses := if verbatim ≠ [] then some (joinSep ", " verbatim) else none }]

/-! ### The per-question tally loops -/

structure MultiTally where
  counts : List (String × Nat)
  others : List String

/-- The shared multi-select loop (questions 1, 4 and 6 of
`buildQuestionsFromHeadersAndRows` repeat it verbatim): initialise every
canonical label to `0`, then per row add the matched hits and collect the
leftovers. -/
def multiTally (rows : List (List String)) (colIdx : Int) (order : List String) : MultiTally :=
  rows.foldl (fun acc r =>
    let res := matchCanonicalOptions (getCell r colIdx) order
    { counts := res.hits.foldl bump acc.counts
      others := acc.others ++ res.leftovers })
    { counts := order.map fun o => (o, 0), others := [] }

/-- `raw.split(",").map(x => x.trim()).filter(Boolean)`. -/
def splitCommaTrim (raw : String) : List String :=
  ((splitChar ',' raw.data).map fun l => jsTrim ⟨l⟩).filter fun s => s ≠ ""

/-- The `mapTool` tally of question 2. -/
def goToToolMap (rows : List (List String)) (colIdx : Int) : List (String × Nat) :=
  rows.foldl (fun m r =>
    let raw := getCell r colIdx
    let items := splitCommaTrim raw
    (if items ≠ [] then items else [raw]).foldl
      (fun m x =>
        let n := normalizeTool x
        if n ≠ "" then bump m n else m) m) []

/-! ### The scale tally, with JS number semantics

A JS number that can appear in the confidence map is either a nonnegative
integer (a bucket tally) or `NaN` (from `undefined + 1` on a key created by a
non-integer in-range cell value); the values are therefore modelled as
`Option Nat`, `none` being `NaN`. -/

/-- `v + 1` on a map value (`undefined` never reaches this: see `confUpdate`). -/
def jadd1 : Option Nat → Option Nat
  | some n => some (n + 1)
  | none => none

/-- JS `+` on two map values, `NaN`-absorbing. -/
def jAdd : Option Nat → Option Nat → Option Nat
  | some a, some b => some (a + b)
  | _, _ => none

/-- `mapConf[key] += 1`: bump an existing key; a missing key reads
`undefined`, and `undefined + 1` is `NaN`, stored at the end of the
insertion order. -/
def confUpdate (m : List (String × Option Nat)) (k : String) : List (String × Option Nat) :=
  if m.any fun p => p.1 = k then
    m.map fun p => if p.1 = k then (p.1, jadd1 p.2) else p
  else m ++ [(k, none)]

def digitsVal (l : List Char) : Nat :=
  l.foldl (fun a c => a * 10 + (c.toNat - '0'.toNat)) 0

/-- `Number(s)` on the decimal fragment of the JS number grammar: optional sign,
integer digits, optional fraction (at least one digit overall); `""` is `0`;
everything else — including the hexadecimal/exponent/`Infinity` forms, which
never pass the `1 ≤ n ≤ 5` guard with an integer anyway — is `none` (`NaN`).
The exact decimal value is represented as a pair `(num, k)` standing for
`num / 10 ^ k`, avoiding floating point while keeping the value exact. -/
def parseJsNumber (s : String) : Option (Int × Nat) :=
  let l := (jsTrim s).data
  if l = [] then some (0, 0)
  else
    let sign : Int := if l.head? = some '-' then -1 else 1
    let l2 := if l.head? = some '-' || l.head? = some '+' then l.drop 1 else l
    let ds := l2.takeWhile Char.isDigit
    let rest1 := l2.dropWhile Char.isDigit
    match rest1 with
    | [] => if ds = [] then none else some (sign * (digitsVal ds : Int), 0)
    | '.' :: rest2 =>
      let fs := rest2.takeWhile Char.isDigit
      let rest3 := rest2.dropWhile Char.isDigit
      if rest3 = [] ∧ ds ++ fs ≠ [] then
        some (sign * ((digitsVal ds * 10 ^ fs.length + digitsVal fs : Nat) : Int), fs.length)
      else none
    | _ => none

/-- The guard `n >= 1 && n <= 5` on the exact value `num / 10 ^ k`. -/
def jsInRange (p : Int × Nat) : Prop :=
  (10 : Int) ^ p.2 ≤ p.1 ∧ p.1 ≤ 5 * (10 : Int) ^ p.2

instance (p : Int × Nat) : Decidable (jsInRange p) := by
  unfold jsInRange
  infer_instance

/-- Cancel trailing decimal zeroes, giving the canonical decimal form that
`String(n)` prints (`2.50` and `2.5` are the same JS number). -/
def strip10 : Int → Nat → Int × Nat
  | n, 0 => (n, 0)
  | n, k + 1 => if n % 10 = 0 then strip10 (n / 10) k else (n, k + 1)

/-- The `k` decimal digits of `m`, zero-padded on the left. -/
def natDigitsPad : Nat → Nat → List Char
  | _, 0 => []
  | m, k + 1 => natDigitsPad (m / 10) k ++ [Char.ofNat ('0'.toNat + m % 10)]

/-- `String(n)` on a number that passed the `1 ≤ n ≤ 5` guard (hence
positive): exact on integers (the decimal numeral); on non-integers the
decimal numeral with its fraction digits — in particular a key distinct from
the five scale keys, the only property of the key the block depends on. -/
def jnumKey (p : Int × Nat) : String :=
  let c := strip10 p.1 p.2
  if c.2 = 0 then toString c.1
  else toString (c.1 / ((10 ^ c.2 : Nat) : Int)) ++ "."
    ++ ⟨natDigitsPad (c.1 % ((10 ^ c.2 : Nat) : Int)).toNat c.2⟩

/-- The confidence `rows.forEach` loop:
`const n = Number(get(r, idx)); if (n >= 1 && n <= 5) mapConf[String(n)] += 1;`. -/
def confTally (rows : List (List String)) (colIdx : Int) : List (String × Option Nat) :=
  rows.foldl (fun m r =>
    match parseJsNumber (getCell r colIdx) with
    | some q => if jsInRange q then confUpdate m (jnumKey q) else m
    | none => m)
    (scaleConfidence.map fun k => (k, some 0))

/-- `Object.values(mapConf).reduce((s, n) => s + n, 0)`. -/
def jSum (m : List (String × Option Nat)) : Option Nat :=
  m.foldl (fun s p => jAdd s p.2) (some 0)

def lookupVal : List (String × Option Nat) → String → Option (Option Nat)
  | [], _ => none
  | p :: ps, k => if p.1 = k then some p.2 else lookupVal ps k

/-- `mapConf[k]` read back as a count (on the emission path every scale key
holds a plain nonnegative integer). -/
def jGetNat (m : List (String × Option Nat)) (k : String) : Nat :=
  match lookupVal m k with
  | some (some n) => n
  | _ => 0

/-! ### The six question blocks and `buildQuestionsFromHeadersAndRows` -/

def aiUsageBlock (headers : List String) (rows : List (List String))
    (ρ : Nat → String) : List Question :=
  let i := findHeaderIdx headers needleAiUsage
  if i > -1 then
    let t := multiTally rows i orderAiUsage
    pushOrderedWithOther .aiUsage t.counts (cleanOtherTextList t.others)
      (answeredCount rows i (findRespondentIdIndex headers) ρ) orderAiUsage
  else []

/-- The sorted bucket list `tallied` of the go-to-tool block. -/
def toolTallied (rows : List (List String)) (c : Int) (total : Nat) : List Bucket :=
  List.insertionSort countGe
    ((goToToolMap rows c).map fun p => (⟨p.1, p.2, pct p.2 total⟩ : Bucket))

/-- `keep`: the named tools at or above the 10% display threshold. -/
def toolKeep (rows : List (List String)) (c : Int) (total : Nat) : List Bucket :=
  (toolTallied rows c total).filter fun b => 10 ≤ b.percentage

/-- `small`: the tools below the 10% display threshold, folded into "Other". -/
def toolSmall (rows : List (List String)) (c : Int) (total : Nat) : List Bucket :=
  (toolTallied rows c total).filter fun b => b.percentage < 10

def goToToolBlock (headers : List String) (rows : List (List String))
    (ρ : Nat → String) : List Question :=
  let i := findHeaderIdx headers needleGoToTool
  if i > -1 then
    let total := answeredCount rows i (findRespondentIdIndex headers) ρ
    if total ≠ 0 then
      let keep := toolKeep rows i total
      let small := toolSmall rows i total
      let otherList := small.map fun b => b.text
      let oc := (small.map fun b => b.count).sum
      [{ question := cfgTitle .goToTool
         type := cfgType .goToTool
         responses := if small ≠ [] then keep ++ [⟨"Other", oc, pct oc total⟩] else keep
         total_responses := total
         other_responses := if otherList ≠ [] then some (joinSep ", " otherList) else none }]
    else []
  else []

def confidenceBlock (headers : List String) (rows : List (List String)) : List Question :=
  let i := findHeaderIdx headers needleConfidence
  if i > -1 then
    let m := confTally rows i
    match jSum m with
    | some t =>
      if t ≠ 0 then
        [{ question := cfgTitle .confidence ++ " (1–5)"
           type := cfgType .confidence
           responses := scaleConfidence.map fun k => ⟨k, jGetNat m k, pct (jGetNat m k) t⟩
           total_responses := t
           other_responses := none }]
      else []
    | none => []
  else []

def curiosityBlock (headers : List String) (rows : List (List String))
    (ρ : Nat → String) : List Question :=
  let i := findHeaderIdx headers needleCuriosity
  if i > -1 then
    let t := multiTally rows i orderCuriosity
    pushOrderedWithOther .curiosity t.counts (cleanOtherTextList t.others)
      (answeredCount rows i (findRespondentIdIndex headers) ρ) orderCuriosity
  else []

def topPriorityBlock (headers : List String) (rows : List (List String))
    (ρ : Nat → String) : List Question :=
  let i := findHeaderIdx headers needleTopPriority
  if i > -1 then
    let counts := rows.foldl
      (fun m r =>
        let v := getCell r i
        if v ≠ "" then bump m v else m)
      (orderTopPriority.map fun o => (o, 0))
    pushOrderedWithOther .topPriority counts []
      (answeredCount rows i (findRespondentIdIndex headers) ρ) orderTopPriority
  else []

def creatorAreasBlock (headers : List String) (rows : List (List String))
    (ρ : Nat → String) : List Question :=
  let i := findHeaderIdx headers needleCreatorAreas
  if i > -1 then
    let t := multiTally rows i orderCreatorAreas
    pushOrderedWithOther .creatorAreas t.counts (cleanOtherTextList t.others)
      (answeredCount rows i (findRespondentIdIndex headers) ρ) orderCreatorAreas
  else []

/-- `buildQuestionsFromHeadersAndRows`: the questions pushed by the six
blocks, in push order. -/
def buildQuestionsFromHeadersAndRows (headers : List String) (rows : List (List String))
    (ρ : Nat → String) : List Question :=
  aiUsageBlock headers rows ρ ++ goToToolBlock headers rows ρ ++ confidenceBlock headers rows
    ++ curiosityBlock headers rows ρ ++ topPriorityBlock headers rows ρ
    ++ creatorAreasBlock headers rows ρ

/-! ### Cited helpers from other revisions of the handler -/

structure TallyResult where
  rows : List Bucket
  total : Nat

/-- `tallyMapToResponses` (defined in the final revision; its percentage
computation carries the explicit `total > 0 ? ... : 0` guard). -/
def tallyMapToResponses (map : List (String × Nat)) : TallyResult :=
  let total := (map.map fun p => p.2).sum
  { rows := List.insertionSort countGe
      ((map.map fun p => (⟨p.1, p.2, if 0 < total then pct p.2 total else 0⟩ : Bucket)).filter
        fun b => 0 < b.count)
    total := total }

/-- `countNonEmpty` of the revision in `src/unnamed/part_001`: the number of
rows whose cell at the column is non-empty after trimming. -/
def countNonEmpty (rows : List (List String)) (colIdx : Int) : Nat :=
  rows.foldl (fun n r => if getCell r colIdx ≠ "" then n + 1 else n) 0

/-! ### Auxiliary notions used by the theorems -/

/-- The raw (pre-`Set`) key sequence of `respondentsWhoAnswered`, one key per
answering row. -/
def keyList (rows : List (List String)) (colIdx respondentIdx : Int)
    (ρ : Nat → String) : List String :=
  (rows.enum.filter fun p => getCell p.2 colIdx ≠ "").map
    fun p => respondentKey respondentIdx ρ p.1 p.2

/-- The almost-sure behaviour of the `Math.random()` draws: pairwise distinct
and never colliding with a respondent-id cell. -/
def FreshKeys (rows : List (List String)) (respondentIdx : Int) (ρ : Nat → String) : Prop :=
  Function.Injective ρ ∧ ∀ (i : Nat), ∀ r ∈ rows, "__row_" ++ ρ i ≠ ridOf respondentIdx r

/-- Following the words of the spec (§4.3): the number of respondents whose
cell produced any leftover (non-canonical) text, each counted once.  Used to
compare the spec with the implemented "Other" count. -/
def specRespondentsWithLeftoverText (rows : List (List String)) (colIdx : Int)
    (order : List String) : Nat :=
  rows.countP fun r => decide ((matchCanonicalOptions (getCell r colIdx) order).leftovers ≠ [])

/-! ### Structural lemmas: the ordered response list -/

theorem orderedResponses_foldl (m : List (String × Nat)) (t : Nat) :
    ∀ (order : List String) (acc : List Bucket),
      order.foldl (fun acc label =>
        let count := lookupD m label 0
        if 0 < count then acc ++ [⟨label, count, pct count t⟩] else acc) acc
      = acc ++ order.filterMap (fun label =>
          let count := lookupD m label 0
          if 0 < count then some ⟨label, count, pct count t⟩ else none) := by
  intro order
  induction order with
  | nil => intro acc; simp
  | cons label rest ih =>
    intro acc
    simp only [List.foldl_cons, List.filterMap_cons]
    by_cases h : 0 < lookupD m label 0
    · simp only [h, if_pos, ih]
      simp
    · simp only [h, if_neg, ih]
      simp [h]

theorem orderedResponses_eq (m : List (String × Nat)) (t : Nat) (order : List String) :
    orderedResponses m t order
      = order.filterMap (fun label =>
          let count := lookupD m label 0
          if 0 < count then some ⟨label, count, pct count t⟩ else none) := by
  simpa [orderedResponses] using orderedResponses_foldl m t order []

theorem orderedResponses_mem {m : List (String × Nat)} {t : Nat} {order : List String}
    {b : Bucket} (hb : b ∈ orderedResponses m t order) :
    b.text ∈ order ∧ 0 < b.count ∧ b.count = lookupD m b.text 0
      ∧ b.percentage = pct b.count t := by
  rw [orderedResponses_eq] at hb
  rcases List.mem_filterMap.1 hb with ⟨label, hlabel, hsome⟩
  simp only at hsome
  by_cases h : 0 < lookupD m label 0
  · rw [if_pos h] at hsome
    cases hsome
    exact ⟨hlabel, h, rfl, rfl⟩
  · rw [if_neg h] at hsome
    cases hsome

theorem orderedResponses_texts (m : List (String × Nat)) (t : Nat) (order : List String) :
    (orderedResponses m t order).map Bucket.text
      = order.filter (fun label => decide (0 < lookupD m label 0)) := by
  rw [orderedResponses_eq]
  induction order with
  | nil => rfl
  | cons label rest ih =>
    simp only [List.filterMap_cons, List.filter_cons]
    by_cases h : 0 < lookupD m label 0
    · simp [h, ih]
    · simp [h, ih]

/-! ### Structural lemmas: `pushOrderedWithOther` -/

theorem pushOrdered_mem {cfgKey : CfgKey} {m : List (String × Nat)} {others : List String}
    {total : Nat} {order : List String} {q : Question}
    (hq : q ∈ pushOrderedWithOther cfgKey m others total order) :
    0 < total ∧ q.total_responses = total ∧ q.question = cfgTitle cfgKey
      ∧ q.type = cfgType cfgKey
      ∧ ((others.filter (fun s => s ≠ "") = [] ∧ q.responses = orderedResponses m total order)
        ∨ (others.filter (fun s => s ≠ "") ≠ [] ∧
            q.responses = orderedResponses m total order
              ++ [⟨"Other", (others.filter (fun s => s ≠ "")).length,
                  pct (others.filter (fun s => s ≠ "")).length total⟩])) := by
  by_cases h0 : total = 0
  · simp [pushOrderedWithOther, h0] at hq
  · simp only [pushOrderedWithOther, if_neg h0, List.mem_singleton] at hq
    subst hq
    refine ⟨Nat.pos_of_ne_zero h0, rfl, rfl, rfl, ?_⟩
    by_cases hv : others.filter (fun s => s ≠ "") = []
    · refine Or.inl ⟨hv, ?_⟩
      rw [if_neg (not_not_intro hv)]
    · refine Or.inr ⟨hv, ?_⟩
      rw [if_pos hv]
/-! ### Lemmas on `setAdd` folds (JS `Set` insertion) -/

theorem mem_foldl_setAdd {α : Type} [DecidableEq α] :
    ∀ (l acc : List α) (x : α), x ∈ l.foldl setAdd acc ↔ x ∈ acc ∨ x ∈ l := by
  intro l
  induction l with
  | nil => simp
  | cons y rest ih =>
    intro acc x
    simp only [List.foldl_cons, ih, setAdd]
    by_cases hy : y ∈ acc
    · simp only [if_pos hy, List.mem_cons]
      constructor
      · rintro (h | h)
        · exact Or.inl h
        · exact Or.inr (Or.inr h)
      · rintro (h | rfl | h)
        · exact Or.inl h
        · exact Or.inl hy
        · exact Or.inr h
    · simp only [if_neg hy, List.mem_append, List.mem_singleton, List.mem_cons]
      tauto

theorem nodup_foldl_setAdd {α : Type} [DecidableEq α] :
    ∀ (l acc : List α), acc.Nodup → (l.foldl setAdd acc).Nodup := by
  intro l
  induction l with
  | nil => intro acc h; exact h
  | cons y rest ih =>
    intro acc h
    simp only [List.foldl_cons]
    refine ih _ ?_
    unfold setAdd
    by_cases hy : y ∈ acc
    · rw [if_pos hy]; exact h
    · rw [if_neg hy]
      simpa [List.nodup_append] using ⟨h, hy⟩

theorem length_foldl_setAdd {α : Type} [DecidableEq α] :
    ∀ (l acc : List α), l.Nodup → (∀ x ∈ l, x ∉ acc) →
      (l.foldl setAdd acc).length = acc.length + l.length := by
  intro l
  induction l with
  | nil => intro acc _ _; simp
  | cons y rest ih =>
    intro acc hnd hdisj
    simp only [List.foldl_cons]
    rw [setAdd, if_neg (hdisj y (List.mem_cons_self y rest))]
    rw [ih (acc ++ [y]) (List.nodup_cons.1 hnd).2 ?_]
    · simp [Nat.add_assoc, Nat.add_comm 1]
    · intro x hx
      simp only [List.mem_append, List.mem_singleton]
      rintro (h | rfl)
      · exact hdisj x (List.mem_cons_of_mem y hx) h
      · exact (List.nodup_cons.1 hnd).1 hx

theorem jsDedup_nodup {α : Type} [DecidableEq α] (l : List α) : (jsDedup l).Nodup :=
  nodup_foldl_setAdd l [] List.nodup_nil

theorem jsDedup_mem {α : Type} [DecidableEq α] (l : List α) (x : α) :
    x ∈ jsDedup l ↔ x ∈ l := by
  simpa using mem_foldl_setAdd l [] x

/-! ### Lemmas on `lookupD` and `bump` -/

theorem lookupD_bump (m : List (String × Nat)) (k k' : String) :
    lookupD (bump m k) k' 0 = lookupD m k' 0 + (if k' = k then 1 else 0) := by
  induction m with
  | nil =>
    by_cases h : k' = k
    · subst h; simp [bump, lookupD]
    · simp only [bump, lookupD]
      rw [if_neg (fun hh => h hh.symm), if_neg h]
  | cons p ps ih =>
    by_cases hp : p.1 = k
    · rw [bump, if_pos hp]
      by_cases hp' : p.1 = k'
      · have hk : k' = k := hp ▸ hp'.symm ▸ rfl
        simp [lookupD, hp', hk]
      · have hk : ¬ k' = k := fun h => hp' (h ▸ hp)
        simp [lookupD, hp', hk]
    · rw [bump, if_neg hp]
      by_cases hp' : p.1 = k'
      · have hk : ¬ k' = k := fun h => hp (h ▸ hp')
        simp [lookupD, hp', hk]
      · simp [lookupD, hp', ih]

theorem lookupD_foldl_bump (hits : List String) (hnd : hits.Nodup)
    (m : List (String × Nat)) (opt : String) :
    lookupD (hits.foldl bump m) opt 0
      = lookupD m opt 0 + (if opt ∈ hits then 1 else 0) := by
  induction hits generalizing m with
  | nil => simp
  | cons h rest ih =>
    simp only [List.foldl_cons]
    rw [ih (List.nodup_cons.1 hnd).2 (bump m h), lookupD_bump]
    by_cases ho : opt = h
    · subst ho
      simp [(List.nodup_cons.1 hnd).1]
    · simp only [List.mem_cons, ho, false_or]
      by_cases hr : opt ∈ rest <;> simp [hr, ho]

theorem lookupD_init_zero (order : List String) (opt : String) :
    lookupD (order.map fun o => (o, 0)) opt 0 = 0 := by
  induction order with
  | nil => rfl
  | cons o rest ih =>
    simp only [List.map_cons, lookupD]
    split <;> simp [ih]
/-! ### Lemmas on column counting and respondent keys -/

theorem countNonEmpty_eq (rows : List (List String)) (colIdx : Int) :
    countNonEmpty rows colIdx = rows.countP fun r => decide (getCell r colIdx ≠ "") := by
  suffices h : ∀ (l : List (List String)) (n : Nat),
      l.foldl (fun n r => if getCell r colIdx ≠ "" then n + 1 else n) n
        = n + l.countP (fun r => decide (getCell r colIdx ≠ "")) by
    unfold countNonEmpty
    simpa using h rows 0
  intro l
  induction l with
  | nil => simp
  | cons r rest ih =>
    intro n
    simp only [List.foldl_cons, List.countP_cons]
    by_cases hr : getCell r colIdx ≠ ""
    · rw [if_pos hr, ih]
      simp [hr]
      omega
    · rw [if_neg hr, ih]
      simp [hr]

theorem mem_of_mem_enumFrom {α : Type} :
    ∀ (l : List α) (n : Nat) (p : Nat × α), p ∈ List.enumFrom n l → p.2 ∈ l := by
  intro l
  induction l with
  | nil => intro n p hp; cases hp
  | cons x rest ih =>
    intro n p hp
    cases hp with
    | head => exact List.mem_cons_self x rest
    | tail _ hp => exact List.mem_cons_of_mem x (ih (n + 1) p hp)

theorem enumFrom_filter_length {α : Type} (pred : α → Bool) :
    ∀ (l : List α) (n : Nat),
      ((List.enumFrom n l).filter fun p => pred p.2).length = l.countP pred := by
  intro l
  induction l with
  | nil => intro n; rfl
  | cons x rest ih =>
    intro n
    simp only [List.enumFrom, List.filter_cons, List.countP_cons]
    by_cases hx : pred x
    · simp [hx, ih]
    · simp [hx, ih]

theorem keyList_length (rows : List (List String)) (colIdx respondentIdx : Int)
    (ρ : Nat → String) :
    (keyList rows colIdx respondentIdx ρ).length
      = rows.countP fun r => decide (getCell r colIdx ≠ "") := by
  unfold keyList
  rw [List.length_map, List.enum]
  exact enumFrom_filter_length (fun r => decide (getCell r colIdx ≠ "")) rows 0

theorem respondentKeysAux_eq_foldl (colIdx respondentIdx : Int) (ρ : Nat → String) :
    ∀ (l : List (Nat × List String)) (acc : List String),
      respondentKeysAux colIdx respondentIdx ρ l acc
        = ((l.filter fun p => getCell p.2 colIdx ≠ "").map
            fun p => respondentKey respondentIdx ρ p.1 p.2).foldl setAdd acc := by
  intro l
  induction l with
  | nil => intro acc; rfl
  | cons p rest ih =>
    intro acc
    obtain ⟨i, r⟩ := p
    by_cases hr : getCell r colIdx ≠ ""
    · rw [respondentKeysAux, if_pos hr]
      rw [List.filter_cons_of_pos (by simpa using hr), List.map_cons, List.foldl_cons]
      exact ih _
    · rw [respondentKeysAux, if_neg hr]
      rw [List.filter_cons_of_neg (by simpa using hr)]
      exact ih _

theorem respondentsWhoAnswered_eq (rows : List (List String)) (colIdx respondentIdx : Int)
    (ρ : Nat → String) (hc : ¬ colIdx < 0) :
    respondentsWhoAnswered rows colIdx respondentIdx ρ
      = (keyList rows colIdx respondentIdx ρ).foldl setAdd [] := by
  rw [respondentsWhoAnswered, if_neg hc, keyList, List.enum]
  exact respondentKeysAux_eq_foldl colIdx respondentIdx ρ (List.enumFrom 0 rows) []

theorem answeredCount_of_nodup (rows : List (List String)) (colIdx respondentIdx : Int)
    (ρ : Nat → String) (hc : ¬ colIdx < 0)
    (hnd : (keyList rows colIdx respondentIdx ρ).Nodup) :
    answeredCount rows colIdx respondentIdx ρ
      = rows.countP fun r => decide (getCell r colIdx ≠ "") := by
  rw [answeredCount, respondentsWhoAnswered_eq rows colIdx respondentIdx ρ hc]
  rw [length_foldl_setAdd _ [] hnd (by intro x _ hx; cases hx)]
  simpa using keyList_length rows colIdx respondentIdx ρ

/-- `String.append` cancels on the left. -/
theorem string_append_left_cancel {p a b : String} (h : p ++ a = p ++ b) : a = b := by
  have hd : p.data ++ a.data = p.data ++ b.data := congrArg String.data h
  have hab : a.data = b.data := List.append_cancel_left hd
  cases a
  cases b
  exact congrArg String.mk hab

theorem respondentKey_of_neg (respondentIdx : Int) (hneg : respondentIdx < 0)
    (ρ : Nat → String) (i : Nat) (r : List String) :
    respondentKey respondentIdx ρ i r = "__row_" ++ ρ i := by
  have h0 : ¬ (0 ≤ respondentIdx) := by omega
  rw [respondentKey, ridOf, if_neg h0]
  simp

theorem keyList_nodup_of_neg (rows : List (List String)) (colIdx respondentIdx : Int)
    (ρ : Nat → String) (hneg : respondentIdx < 0) (hinj : Function.Injective ρ) :
    (keyList rows colIdx respondentIdx ρ).Nodup := by
  unfold keyList
  have hfresh : Function.Injective (fun i => "__row_" ++ ρ i) := by
    intro a b hab
    exact hinj (string_append_left_cancel hab)
  have hκ : ((rows.enum.filter fun p => getCell p.2 colIdx ≠ "").map
        fun p => respondentKey respondentIdx ρ p.1 p.2)
      = ((rows.enum.filter fun p => getCell p.2 colIdx ≠ "").map Prod.fst).map
          fun i => "__row_" ++ ρ i := by
    rw [List.map_map]
    exact List.map_congr_left fun p _ => respondentKey_of_neg respondentIdx hneg ρ p.1 p.2
  rw [hκ]
  refine List.Nodup.map hfresh ?_
  have hsub : List.Sublist ((rows.enum.filter fun p => getCell p.2 colIdx ≠ "").map Prod.fst)
      (rows.enum.map Prod.fst) := List.Sublist.map Prod.fst (List.filter_sublist _)
  refine hsub.nodup ?_
  rw [List.enum_map_fst]
  exact List.nodup_range _
/-! ### Lemmas on `matchCanonicalOptions` and `multiTally` -/

theorem setAdd_nodup {α : Type} [DecidableEq α] {l : List α} (h : l.Nodup) (k : α) :
    (setAdd l k).Nodup := by
  unfold setAdd
  by_cases hk : k ∈ l
  · rw [if_pos hk]; exact h
  · rw [if_neg hk]
    simpa [List.nodup_append] using ⟨h, hk⟩

theorem foldl_fst_nodup {β : Type} (g : List String × String → β → List String × String)
    (hg : ∀ acc x, (g acc x).1 = acc.1 ∨ ∃ k, (g acc x).1 = setAdd acc.1 k) :
    ∀ (l : List β) (acc : List String × String), acc.1.Nodup → (l.foldl g acc).1.Nodup := by
  intro l
  induction l with
  | nil => intro acc h; exact h
  | cons x rest ih =>
    intro acc h
    simp only [List.foldl_cons]
    refine ih (g acc x) ?_
    rcases hg acc x with hsame | ⟨k, hadd⟩
    · rw [hsame]; exact h
    · rw [hadd]; exact setAdd_nodup h k

theorem hits_nodup (answer : String) (order : List String) :
    (matchCanonicalOptions answer order).hits.Nodup := by
  unfold matchCanonicalOptions
  refine foldl_fst_nodup _ ?_ order ([], answer) List.nodup_nil
  intro acc opt
  by_cases hm : (opt :: ALIASES opt).any fun name =>
      containsSub (lowerStr answer) (lowerStr name)
  · right
    exact ⟨opt, by rw [if_pos hm]⟩
  · left
    rw [if_neg hm]

theorem data_ne_nil_of_ne {s : String} (h : s ≠ "") : s.data ≠ [] := by
  intro hd
  apply h
  cases s
  simp only at hd
  rw [hd]

theorem containsSub_empty_hay (needle : String) (h : needle.data ≠ []) :
    containsSub "" needle = false := by
  cases hnd : needle.data with
  | nil => exact absurd hnd h
  | cons c cs => simp [containsSub, containsList, hnd]

theorem ALIASES_ne_empty (o s : String) (hs : s ∈ ALIASES o) : s ≠ "" := by
  unfold ALIASES at hs
  repeat' split at hs
  all_goals simp only [List.mem_cons, List.not_mem_nil, or_false] at hs
  all_goals first
    | exact hs.elim
    | (rcases hs with rfl | rfl <;> decide)

theorem lowerStr_data_ne {name : String} (h : name ≠ "") : (lowerStr name).data ≠ [] := by
  have := data_ne_nil_of_ne h
  simp only [lowerStr]
  intro hx
  exact this (List.map_eq_nil_iff.1 hx)

theorem hits_of_empty (order : List String) (horder : ∀ o ∈ order, o ≠ "") :
    (matchCanonicalOptions "" order).hits = [] := by
  unfold matchCanonicalOptions
  suffices h : ∀ (l : List String), (∀ o ∈ l, o ≠ "") → ∀ (acc : List String × String),
      (l.foldl (fun (acc : List String × String) opt =>
        let names := opt :: ALIASES opt
        if names.any fun name => containsSub (lowerStr "") (lowerStr name) then
          (setAdd acc.1 opt, ⟨removeFirstCI acc.2.data opt.data⟩)
        else acc) acc).1 = acc.1 by
    exact h order horder ([], "")
  intro l
  induction l with
  | nil => intro _ acc; rfl
  | cons opt rest ih =>
    intro hl acc
    simp only [List.foldl_cons]
    have hm : ((opt :: ALIASES opt).any fun name =>
        containsSub (lowerStr "") (lowerStr name)) = false := by
      rw [List.any_eq_false]
      intro name hname
      have hne : name ≠ "" := by
        rcases List.mem_cons.1 hname with rfl | ha
        · exact hl name (List.mem_cons_self _ _)
        · exact ALIASES_ne_empty opt name ha
      have : lowerStr "" = "" := rfl
      rw [this, containsSub_empty_hay (lowerStr name) (lowerStr_data_ne hne)]
      simp
    rw [if_neg (by simp [hm])]
    exact ih (fun o ho => hl o (List.mem_cons_of_mem _ ho)) acc

theorem hits_ne_of_mem {answer : String} {order : List String} {opt : String}
    (horder : ∀ o ∈ order, o ≠ "")
    (hopt : opt ∈ (matchCanonicalOptions answer order).hits) : answer ≠ "" := by
  intro ha
  subst ha
  rw [hits_of_empty order horder] at hopt
  cases hopt
theorem multiTally_counts (rows : List (List String)) (colIdx : Int) (order : List String)
    (opt : String) :
    lookupD (multiTally rows colIdx order).counts opt 0
      = rows.countP fun r =>
          decide (opt ∈ (matchCanonicalOptions (getCell r colIdx) order).hits) := by
  unfold multiTally
  suffices h : ∀ (l : List (List String)) (acc : MultiTally),
      lookupD ((l.foldl (fun acc r =>
        let res := matchCanonicalOptions (getCell r colIdx) order
        { counts := res.hits.foldl bump acc.counts
          others := acc.others ++ res.leftovers }) acc).counts) opt 0
        = lookupD acc.counts opt 0
          + l.countP (fun r =>
              decide (opt ∈ (matchCanonicalOptions (getCell r colIdx) order).hits)) by
    rw [h rows _, lookupD_init_zero]
    omega
  intro l
  induction l with
  | nil => intro acc; simp
  | cons r rest ih =>
    intro acc
    simp only [List.foldl_cons, List.countP_cons]
    rw [ih]
    simp only
    rw [lookupD_foldl_bump _ (hits_nodup (getCell r colIdx) order)]
    by_cases hr : opt ∈ (matchCanonicalOptions (getCell r colIdx) order).hits
    · simp [hr]
      omega
    · simp [hr]

theorem multiTally_others (rows : List (List String)) (colIdx : Int) (order : List String) :
    (multiTally rows colIdx order).others
      = rows.flatMap fun r => (matchCanonicalOptions (getCell r colIdx) order).leftovers := by
  unfold multiTally
  suffices h : ∀ (l : List (List String)) (acc : MultiTally),
      (l.foldl (fun acc r =>
        let res := matchCanonicalOptions (getCell r colIdx) order
        { counts := res.hits.foldl bump acc.counts
          others := acc.others ++ res.leftovers }) acc).others
        = acc.others
          ++ l.flatMap fun r => (matchCanonicalOptions (getCell r colIdx) order).leftovers by
    rw [h rows _]
    rfl
  intro l
  induction l with
  | nil => intro acc; simp
  | cons r rest ih =>
    intro acc
    simp only [List.foldl_cons, List.flatMap_cons]
    rw [ih]
    simp
/-! ### Derived facts about pushed questions -/

theorem other_not_in_orderAiUsage : "Other" ∉ orderAiUsage := by decide

theorem other_not_in_orderCuriosity : "Other" ∉ orderCuriosity := by decide

theorem other_not_in_orderTopPriority : "Other" ∉ orderTopPriority := by decide

theorem other_not_in_orderCreatorAreas : "Other" ∉ orderCreatorAreas := by decide

theorem pushOrdered_pct {cfgKey : CfgKey} {m : List (String × Nat)} {others : List String}
    {total : Nat} {order : List String} {q : Question}
    (hq : q ∈ pushOrderedWithOther cfgKey m others total order)
    {b : Bucket} (hb : b ∈ q.responses) :
    b.percentage = pct b.count q.total_responses := by
  obtain ⟨-, htot, -, -, hresp | hresp⟩ := pushOrdered_mem hq
  · rw [htot]
    rw [hresp.2] at hb
    exact (orderedResponses_mem hb).2.2.2
  · rw [htot]
    rw [hresp.2] at hb
    rcases List.mem_append.1 hb with hb1 | hb2
    · exact (orderedResponses_mem hb1).2.2.2
    · rcases List.mem_singleton.1 hb2 with rfl
      rfl

theorem pushOrdered_other_last {cfgKey : CfgKey} {m : List (String × Nat)}
    {others : List String} {total : Nat} {order : List String} {q : Question}
    (hq : q ∈ pushOrderedWithOther cfgKey m others total order)
    (hOther : "Other" ∉ order) {b : Bucket} (hb : b ∈ q.responses)
    (hbt : b.text = "Other") :
    q.responses.getLast? = some b := by
  obtain ⟨-, -, -, -, hresp | hresp⟩ := pushOrdered_mem hq
  · rw [hresp.2] at hb
    have := (orderedResponses_mem hb).1
    rw [hbt] at this
    exact absurd this hOther
  · rw [hresp.2] at hb ⊢
    rcases List.mem_append.1 hb with hb1 | hb2
    · have := (orderedResponses_mem hb1).1
      rw [hbt] at this
      exact absurd this hOther
    · rcases List.mem_singleton.1 hb2 with rfl
      exact List.getLast?_concat _

theorem orderedResponses_filter_ne_other {m : List (String × Nat)} {total : Nat}
    {order : List String} (hOther : "Other" ∉ order) :
    (orderedResponses m total order).filter (fun b => b.text ≠ "Other")
      = orderedResponses m total order := by
  rw [List.filter_eq_self]
  intro b hb
  have hmem := (orderedResponses_mem hb).1
  simp only [ne_eq, decide_not, Bool.not_eq_true', decide_eq_false_iff_not]
  intro he
  rw [he] at hmem
  exact hOther hmem

theorem pushOrdered_nonOther_sublist {cfgKey : CfgKey} {m : List (String × Nat)}
    {others : List String} {total : Nat} {order : List String} {q : Question}
    (hq : q ∈ pushOrderedWithOther cfgKey m others total order)
    (hOther : "Other" ∉ order) :
    List.Sublist ((q.responses.filter fun b => b.text ≠ "Other").map Bucket.text) order := by
  obtain ⟨-, -, -, -, hresp | hresp⟩ := pushOrdered_mem hq
  · rw [hresp.2, orderedResponses_filter_ne_other hOther, orderedResponses_texts]
    exact List.filter_sublist order
  · rw [hresp.2, List.filter_append]
    have h1 : (([⟨"Other", (others.filter fun s => s ≠ "").length,
        pct (others.filter fun s => s ≠ "").length total⟩] : List Bucket).filter
          fun b => b.text ≠ "Other") = [] := by
      simp
    rw [h1, List.append_nil, orderedResponses_filter_ne_other hOther, orderedResponses_texts]
    exact List.filter_sublist order

theorem pushOrdered_count_le {cfgKey : CfgKey} {m : List (String × Nat)}
    {others : List String} {total : Nat} {order : List String} {q : Question}
    (hq : q ∈ pushOrderedWithOther cfgKey m others total order)
    (hcounts : ∀ label, lookupD m label 0 ≤ total)
    {b : Bucket} (hb : b ∈ q.responses) (hbt : b.text ≠ "Other") :
    b.count ≤ q.total_responses := by
  obtain ⟨-, htot, -, -, hresp | hresp⟩ := pushOrdered_mem hq
  · rw [htot]
    rw [hresp.2] at hb
    rw [(orderedResponses_mem hb).2.2.1]
    exact hcounts b.text
  · rw [htot]
    rw [hresp.2] at hb
    rcases List.mem_append.1 hb with hb1 | hb2
    · rw [(orderedResponses_mem hb1).2.2.1]
      exact hcounts b.text
    · rcases List.mem_singleton.1 hb2 with rfl
      exact absurd rfl hbt

/-! ### Reduction of the block definitions to `pushOrderedWithOther` -/

theorem aiUsageBlock_sub {headers : List String} {rows : List (List String)}
    {ρ : Nat → String} {q : Question} (hq : q ∈ aiUsageBlock headers rows ρ) :
    q ∈ pushOrderedWithOther .aiUsage
        (multiTally rows (findHeaderIdx headers needleAiUsage) orderAiUsage).counts
        (cleanOtherTextList
          (multiTally rows (findHeaderIdx headers needleAiUsage) orderAiUsage).others)
        (answeredCount rows (findHeaderIdx headers needleAiUsage)
          (findRespondentIdIndex headers) ρ)
        orderAiUsage := by
  simp only [aiUsageBlock] at hq
  split at hq
  · exact hq
  · cases hq

theorem curiosityBlock_sub {headers : List String} {rows : List (List String)}
    {ρ : Nat → String} {q : Question} (hq : q ∈ curiosityBlock headers rows ρ) :
    q ∈ pushOrderedWithOther .curiosity
        (multiTally rows (findHeaderIdx headers needleCuriosity) orderCuriosity).counts
        (cleanOtherTextList
          (multiTally rows (findHeaderIdx headers needleCuriosity) orderCuriosity).others)
        (answeredCount rows (findHeaderIdx headers needleCuriosity)
          (findRespondentIdIndex headers) ρ)
        orderCuriosity := by
  simp only [curiosityBlock] at hq
  split at hq
  · exact hq
  · cases hq

theorem creatorAreasBlock_sub {headers : List String} {rows : List (List String)}
    {ρ : Nat → String} {q : Question} (hq : q ∈ creatorAreasBlock headers rows ρ) :
    q ∈ pushOrderedWithOther .creatorAreas
        (multiTally rows (findHeaderIdx headers needleCreatorAreas) orderCreatorAreas).counts
        (cleanOtherTextList
          (multiTally rows (findHeaderIdx headers needleCreatorAreas) orderCreatorAreas).others)
        (answeredCount rows (findHeaderIdx headers needleCreatorAreas)
          (findRespondentIdIndex headers) ρ)
        orderCreatorAreas := by
  simp only [creatorAreasBlock] at hq
  split at hq
  · exact hq
  · cases hq

theorem topPriorityBlock_sub {headers : List String} {rows : List (List String)}
    {ρ : Nat → String} {q : Question} (hq : q ∈ topPriorityBlock headers rows ρ) :
    q ∈ pushOrderedWithOther .topPriority
        (rows.foldl
          (fun m r =>
            let v := getCell r (findHeaderIdx headers needleTopPriority)
            if v ≠ "" then bump m v else m)
          (orderTopPriority.map fun o => (o, 0)))
        []
        (answeredCount rows (findHeaderIdx headers needleTopPriority)
          (findRespondentIdIndex headers) ρ)
        orderTopPriority := by
  simp only [topPriorityBlock] at hq
  split at hq
  · exact hq
  · cases hq
/-! ### The shape invariant of the confidence tally map -/

/-- The confidence map always consists of the five scale slots (holding plain
counts) followed by ad-hoc keys holding `NaN`. -/
def ConfShape (m : List (String × Option Nat)) : Prop :=
  ∃ n1 n2 n3 n4 n5 adhoc,
    m = ("1", some n1) :: ("2", some n2) :: ("3", some n3) :: ("4", some n4)
        :: ("5", some n5) :: adhoc
      ∧ ∀ p ∈ adhoc, p.2 = (none : Option Nat)

theorem confUpdate_shape {m : List (String × Option Nat)} (h : ConfShape m) (k : String) :
    ConfShape (confUpdate m k) := by
  obtain ⟨n1, n2, n3, n4, n5, adhoc, rfl, hadhoc⟩ := h
  unfold confUpdate
  split
  · refine ⟨if "1" = k then n1 + 1 else n1, if "2" = k then n2 + 1 else n2,
      if "3" = k then n3 + 1 else n3, if "4" = k then n4 + 1 else n4,
      if "5" = k then n5 + 1 else n5,
      adhoc.map fun p => if p.1 = k then (p.1, jadd1 p.2) else p, ?_, ?_⟩
    · simp only [List.map_cons]
      by_cases hk1 : ("1" : String) = k <;> by_cases hk2 : ("2" : String) = k <;>
        by_cases hk3 : ("3" : String) = k <;> by_cases hk4 : ("4" : String) = k <;>
          by_cases hk5 : ("5" : String) = k <;>
        simp [hk1, hk2, hk3, hk4, hk5, jadd1]
    · intro p hp
      rcases List.mem_map.1 hp with ⟨p0, hp0, rfl⟩
      by_cases h0 : p0.1 = k
      · simp [h0, jadd1, hadhoc p0 hp0]
      · simp [h0, hadhoc p0 hp0]
  · refine ⟨n1, n2, n3, n4, n5, adhoc ++ [(k, none)], by simp, ?_⟩
    intro p hp
    rcases List.mem_append.1 hp with hp1 | hp2
    · exact hadhoc p hp1
    · rcases List.mem_singleton.1 hp2 with rfl
      rfl

theorem confTally_shape (rows : List (List String)) (colIdx : Int) :
    ConfShape (confTally rows colIdx) := by
  unfold confTally
  suffices h : ∀ (l : List (List String)) (m : List (String × Option Nat)), ConfShape m →
      ConfShape (l.foldl (fun m r =>
        match parseJsNumber (getCell r colIdx) with
        | some q => if jsInRange q then confUpdate m (jnumKey q) else m
        | none => m) m) by
    exact h rows _ ⟨0, 0, 0, 0, 0, [], rfl, by intro p hp; cases hp⟩
  intro l
  induction l with
  | nil => intro m hm; exact hm
  | cons r rest ih =>
    intro m hm
    simp only [List.foldl_cons]
    refine ih _ ?_
    cases hp : parseJsNumber (getCell r colIdx) with
    | none => simpa [hp] using hm
    | some v =>
      simp only [hp]
      by_cases hv : jsInRange v
      · rw [if_pos hv]
        exact confUpdate_shape hm _
      · rw [if_neg hv]
        exact hm

theorem jSum_none_absorb :
    ∀ (l : List (String × Option Nat)),
      l.foldl (fun s p => jAdd s p.2) none = none := by
  intro l
  induction l with
  | nil => rfl
  | cons p rest ih =>
    simp only [List.foldl_cons]
    have : jAdd none p.2 = none := by cases p.2 <;> rfl
    rw [this, ih]

theorem jSum_shape_nil (n1 n2 n3 n4 n5 : Nat) :
    jSum [("1", some n1), ("2", some n2), ("3", some n3), ("4", some n4), ("5", some n5)]
      = some (0 + n1 + n2 + n3 + n4 + n5) := rfl

theorem jSum_shape_cons (n1 n2 n3 n4 n5 : Nat) (p : String × Option Nat)
    (rest : List (String × Option Nat)) (hp2 : p.2 = (none : Option Nat)) :
    jSum (("1", some n1) :: ("2", some n2) :: ("3", some n3) :: ("4", some n4)
        :: ("5", some n5) :: p :: rest)
      = none := by
  have hnone : ∀ s : Option Nat, jAdd s none = none := fun s => by cases s <;> rfl
  unfold jSum
  simp only [List.foldl_cons]
  rw [hp2, hnone]
  exact jSum_none_absorb rest

/-- Every question emitted by the confidence block carries the five scale
buckets in ascending order (zero counts included), a positive denominator
equal to the sum of the bucket counts, and computed percentages. -/
theorem confidence_mem {headers : List String} {rows : List (List String)} {q : Question}
    (hq : q ∈ confidenceBlock headers rows) :
    ∃ t n1 n2 n3 n4 n5,
      t = 0 + n1 + n2 + n3 + n4 + n5
      ∧ 0 < t
      ∧ q.total_responses = t
      ∧ q.type = "scale"
      ∧ q.question = cfgTitle .confidence ++ " (1–5)"
      ∧ q.other_responses = none
      ∧ q.responses = [⟨"1", n1, pct n1 t⟩, ⟨"2", n2, pct n2 t⟩, ⟨"3", n3, pct n3 t⟩,
          ⟨"4", n4, pct n4 t⟩, ⟨"5", n5, pct n5 t⟩] := by
  simp only [confidenceBlock] at hq
  split at hq
  case isTrue hidx =>
    obtain ⟨n1, n2, n3, n4, n5, adhoc, hm, hadhoc⟩ :=
      confTally_shape rows (findHeaderIdx headers needleConfidence)
    split at hq
    case h_1 t heq =>
      cases hadhoc2 : adhoc with
      | cons p rest =>
        rw [hadhoc2] at hm
        rw [hm, jSum_shape_cons n1 n2 n3 n4 n5 p rest
          (hadhoc p (hadhoc2 ▸ List.mem_cons_self _ _))] at heq
        cases heq
      | nil =>
        rw [hadhoc2] at hm
        rw [hm, jSum_shape_nil] at heq
        have ht : t = 0 + n1 + n2 + n3 + n4 + n5 := (Option.some.inj heq).symm
        split at hq
        case isTrue htne =>
          rcases List.mem_singleton.1 hq with rfl
          refine ⟨t, n1, n2, n3, n4, n5, ht, Nat.pos_of_ne_zero htne, rfl, rfl, rfl, rfl, ?_⟩
          rw [hm]
          rfl
        case isFalse => cases hq
    case h_2 heq => cases hq
  case isFalse => cases hq
/-! ### Shape of the go-to-tool question -/

theorem goToTool_mem {headers : List String} {rows : List (List String)}
    {ρ : Nat → String} {q : Question} (hq : q ∈ goToToolBlock headers rows ρ) :
    ∃ total,
      0 < total ∧ q.total_responses = total ∧ q.type = "single_choice"
      ∧ q.question = cfgTitle .goToTool
      ∧ (q.responses = toolKeep rows (findHeaderIdx headers needleGoToTool) total
        ∨ q.responses
            = toolKeep rows (findHeaderIdx headers needleGoToTool) total
              ++ [⟨"Other",
                  ((toolSmall rows (findHeaderIdx headers needleGoToTool) total).map
                    fun b => b.count).sum,
                  pct (((toolSmall rows (findHeaderIdx headers needleGoToTool) total).map
                    fun b => b.count).sum) total⟩]) := by
  simp only [goToToolBlock] at hq
  split at hq
  case isTrue hidx =>
    split at hq
    case isTrue htot =>
      rcases List.mem_singleton.1 hq with rfl
      refine ⟨answeredCount rows (findHeaderIdx headers needleGoToTool)
        (findRespondentIdIndex headers) ρ, Nat.pos_of_ne_zero htot, rfl, rfl, rfl, ?_⟩
      by_cases hsmall : toolSmall rows (findHeaderIdx headers needleGoToTool)
          (answeredCount rows (findHeaderIdx headers needleGoToTool)
            (findRespondentIdIndex headers) ρ) ≠ []
      · right
        show (if _ ≠ ([] : List Bucket) then _ else _) = _
        rw [if_pos hsmall]
      · left
        show (if _ ≠ ([] : List Bucket) then _ else _) = _
        rw [if_neg hsmall]
    case isFalse => cases hq
  case isFalse => cases hq

theorem toolTallied_mem {rows : List (List String)} {c : Int} {total : Nat} {b : Bucket}
    (hb : b ∈ toolTallied rows c total) :
    ∃ p ∈ goToToolMap rows c, b = (⟨p.1, p.2, pct p.2 total⟩ : Bucket) := by
  unfold toolTallied at hb
  have := (List.perm_insertionSort countGe _).mem_iff.1 hb
  rcases List.mem_map.1 this with ⟨p, hp, rfl⟩
  exact ⟨p, hp, rfl⟩

theorem toolTallied_sorted (rows : List (List String)) (c : Int) (total : Nat) :
    (toolTallied rows c total).Pairwise countGe :=
  List.sorted_insertionSort countGe _

/-! ### Determinism up to the random draws -/

theorem respondentKey_cond {rows : List (List String)} {respondentIdx : Int}
    {ρ₁ ρ₂ : Nat → String} (h₁ : FreshKeys rows respondentIdx ρ₁)
    (h₂ : FreshKeys rows respondentIdx ρ₂) :
    ∀ (i j : Nat) (r r' : List String), r ∈ rows → r' ∈ rows →
      (respondentKey respondentIdx ρ₁ i r = respondentKey respondentIdx ρ₁ j r'
        ↔ respondentKey respondentIdx ρ₂ i r = respondentKey respondentIdx ρ₂ j r') := by
  intro i j r r' hr hr'
  unfold respondentKey
  by_cases hrid : ridOf respondentIdx r ≠ ""
  · by_cases hrid' : ridOf respondentIdx r' ≠ ""
    · rw [if_pos hrid, if_pos hrid', if_pos hrid, if_pos hrid']
    · rw [if_pos hrid, if_neg hrid', if_pos hrid, if_neg hrid']
      constructor
      · intro h; exact absurd h.symm (h₁.2 j r hr)
      · intro h; exact absurd h.symm (h₂.2 j r hr)
  · by_cases hrid' : ridOf respondentIdx r' ≠ ""
    · rw [if_neg hrid, if_pos hrid', if_neg hrid, if_pos hrid']
      constructor
      · intro h; exact absurd h (h₁.2 i r' hr')
      · intro h; exact absurd h (h₂.2 i r' hr')
    · rw [if_neg hrid, if_neg hrid', if_neg hrid, if_neg hrid']
      constructor
      · intro h
        rw [h₁.1 (string_append_left_cancel h)]
      · intro h
        rw [h₂.1 (string_append_left_cancel h)]

theorem respondentKeysAux_length_eq {rows : List (List String)} {c respondentIdx : Int}
    {ρ₁ ρ₂ : Nat → String}
    (cond : ∀ (i j : Nat) (r r' : List String), r ∈ rows → r' ∈ rows →
      (respondentKey respondentIdx ρ₁ i r = respondentKey respondentIdx ρ₁ j r'
        ↔ respondentKey respondentIdx ρ₂ i r = respondentKey respondentIdx ρ₂ j r')) :
    ∀ (l ps : List (Nat × List String)), (∀ p ∈ l, p.2 ∈ rows) → (∀ p ∈ ps, p.2 ∈ rows) →
      (respondentKeysAux c respondentIdx ρ₁ l
          (ps.map fun p => respondentKey respondentIdx ρ₁ p.1 p.2)).length
        = (respondentKeysAux c respondentIdx ρ₂ l
            (ps.map fun p => respondentKey respondentIdx ρ₂ p.1 p.2)).length := by
  intro l
  induction l with
  | nil => intro ps _ _; simp [respondentKeysAux]
  | cons x rest ih =>
    intro ps hl hps
    obtain ⟨i, r⟩ := x
    have hr : r ∈ rows := hl (i, r) (List.mem_cons_self _ _)
    have hrest : ∀ p ∈ rest, p.2 ∈ rows := fun p hp => hl p (List.mem_cons_of_mem _ hp)
    by_cases hcell : getCell r c ≠ ""
    · rw [respondentKeysAux, if_pos hcell, respondentKeysAux, if_pos hcell]
      have hmem : respondentKey respondentIdx ρ₁ i r
            ∈ ps.map (fun p => respondentKey respondentIdx ρ₁ p.1 p.2)
          ↔ respondentKey respondentIdx ρ₂ i r
            ∈ ps.map (fun p => respondentKey respondentIdx ρ₂ p.1 p.2) := by
        simp only [List.mem_map]
        constructor
        · rintro ⟨p, hp, hkey⟩
          exact ⟨p, hp, (cond p.1 i p.2 r (hps p hp) hr).1 hkey⟩
        · rintro ⟨p, hp, hkey⟩
          exact ⟨p, hp, (cond p.1 i p.2 r (hps p hp) hr).2 hkey⟩
      by_cases hin : respondentKey respondentIdx ρ₁ i r
          ∈ ps.map (fun p => respondentKey respondentIdx ρ₁ p.1 p.2)
      · rw [setAdd, if_pos hin, setAdd, if_pos (hmem.1 hin)]
        exact ih ps hrest hps
      · rw [setAdd, if_neg hin, setAdd, if_neg (fun hcontra => hin (hmem.2 hcontra))]
        have h₁ : (ps.map fun p => respondentKey respondentIdx ρ₁ p.1 p.2)
            ++ [respondentKey respondentIdx ρ₁ i r]
            = ((ps ++ [(i, r)]).map fun p => respondentKey respondentIdx ρ₁ p.1 p.2) := by
          simp
        have h₂ : (ps.map fun p => respondentKey respondentIdx ρ₂ p.1 p.2)
            ++ [respondentKey respondentIdx ρ₂ i r]
            = ((ps ++ [(i, r)]).map fun p => respondentKey respondentIdx ρ₂ p.1 p.2) := by
          simp
        rw [h₁, h₂]
        refine ih (ps ++ [(i, r)]) hrest ?_
        intro p hp
        rcases List.mem_append.1 hp with hp1 | hp2
        · exact hps p hp1
        · rcases List.mem_singleton.1 hp2 with rfl
          exact hr
    · rw [respondentKeysAux, if_neg hcell, respondentKeysAux, if_neg hcell]
      exact ih ps hrest hps

theorem answeredCount_rho_eq {rows : List (List String)} {respondentIdx : Int}
    {ρ₁ ρ₂ : Nat → String} (h₁ : FreshKeys rows respondentIdx ρ₁)
    (h₂ : FreshKeys rows respondentIdx ρ₂) (c : Int) :
    answeredCount rows c respondentIdx ρ₁ = answeredCount rows c respondentIdx ρ₂ := by
  unfold answeredCount respondentsWhoAnswered
  by_cases hc : c < 0
  · rw [if_pos hc, if_pos hc]
  · rw [if_neg hc, if_neg hc]
    have := @respondentKeysAux_length_eq rows c respondentIdx ρ₁ ρ₂
      (respondentKey_cond h₁ h₂) rows.enum []
      (fun p hp => mem_of_mem_enumFrom rows 0 p hp) (fun p hp => absurd hp (List.not_mem_nil p))
    simpa using this
/-! ### Membership in the full output -/

theorem build_mem {headers : List String} {rows : List (List String)} {ρ : Nat → String}
    {q : Question} (hq : q ∈ buildQuestionsFromHeadersAndRows headers rows ρ) :
    q ∈ aiUsageBlock headers rows ρ ∨ q ∈ goToToolBlock headers rows ρ
      ∨ q ∈ confidenceBlock headers rows ∨ q ∈ curiosityBlock headers rows ρ
      ∨ q ∈ topPriorityBlock headers rows ρ ∨ q ∈ creatorAreasBlock headers rows ρ := by
  simp only [buildQuestionsFromHeadersAndRows, List.append_assoc, List.mem_append] at hq
  tauto

/-! ### The claims -/

/-- C10: a configured question whose respondent denominator is zero is omitted
from the output entirely: every question emitted by
`buildQuestionsFromHeadersAndRows` has a positive `total_responses`. -/
theorem c10_zero_denominator_omitted (headers : List String) (rows : List (List String))
    (ρ : Nat → String) :
    ∀ q ∈ buildQuestionsFromHeadersAndRows headers rows ρ, 0 < q.total_responses := by
  intro q hq
  rcases build_mem hq with h | h | h | h | h | h
  · obtain ⟨hpos, htot, -⟩ := pushOrdered_mem (aiUsageBlock_sub h)
    rw [htot]; exact hpos
  · obtain ⟨total, hpos, htot, -⟩ := goToTool_mem h
    rw [htot]; exact hpos
  · obtain ⟨t, n1, n2, n3, n4, n5, -, hpos, htot, -⟩ := confidence_mem h
    rw [htot]; exact hpos
  · obtain ⟨hpos, htot, -⟩ := pushOrdered_mem (curiosityBlock_sub h)
    rw [htot]; exact hpos
  · obtain ⟨hpos, htot, -⟩ := pushOrdered_mem (topPriorityBlock_sub h)
    rw [htot]; exact hpos
  · obtain ⟨hpos, htot, -⟩ := pushOrdered_mem (creatorAreasBlock_sub h)
    rw [htot]; exact hpos

/-- Witness for C10 at a concrete one-row grid. -/
theorem c10_witness :
    (⟨cfgTitle .aiUsage, "multiple_choice",
        [⟨"Analyzing campaign results", 1, 100⟩], 1, none⟩ : Question)
      ∈ buildQuestionsFromHeadersAndRows [needleAiUsage] [["Analyzing campaign results"]]
          (fun _ => "r")
    ∧ 0 < (⟨cfgTitle .aiUsage, "multiple_choice",
        [⟨"Analyzing campaign results", 1, 100⟩], 1, none⟩ : Question).total_responses :=
  ⟨by decide,
   c10_zero_denominator_omitted [needleAiUsage] [["Analyzing campaign results"]] (fun _ => "r")
     ⟨cfgTitle .aiUsage, "multiple_choice", [⟨"Analyzing campaign results", 1, 100⟩], 1, none⟩
     (by decide)⟩

/-- C4: every emitted bucket satisfies
`percentage = round(100 * count / total_responses)` (`pct`); the percentage
computation of `tallyMapToResponses` yields `0` when its denominator is `0`;
and `pct` itself maps a zero denominator to `0` rather than failing. -/
theorem c4_percentage_formula (headers : List String) (rows : List (List String))
    (ρ : Nat → String) :
    (∀ q ∈ buildQuestionsFromHeadersAndRows headers rows ρ,
        ∀ b ∈ q.responses, b.percentage = pct b.count q.total_responses)
    ∧ (∀ m : List (String × Nat), (tallyMapToResponses m).total = 0 →
        ∀ b ∈ (tallyMapToResponses m).rows, b.percentage = 0)
    ∧ (∀ c : Nat, pct c 0 = 0) := by
  refine ⟨?_, ?_, fun c => rfl⟩
  · intro q hq b hb
    rcases build_mem hq with h | h | h | h | h | h
    · exact pushOrdered_pct (aiUsageBlock_sub h) hb
    · obtain ⟨total, hpos, htot, -, -, hresp | hresp⟩ := goToTool_mem h
      · rw [hresp] at hb
        obtain ⟨p, hp, rfl⟩ := toolTallied_mem (List.mem_filter.1 hb).1
        rw [htot]
      · rw [hresp] at hb
        rcases List.mem_append.1 hb with hb1 | hb2
        · obtain ⟨p, hp, rfl⟩ := toolTallied_mem (List.mem_filter.1 hb1).1
          rw [htot]
        · rcases List.mem_singleton.1 hb2 with rfl
          rw [htot]
    · obtain ⟨t, n1, n2, n3, n4, n5, -, -, htot, -, -, -, hresp⟩ := confidence_mem h
      rw [hresp] at hb
      rw [htot]
      simp only [List.mem_cons, List.not_mem_nil, or_false] at hb
      rcases hb with rfl | rfl | rfl | rfl | rfl <;> rfl
    · exact pushOrdered_pct (curiosityBlock_sub h) hb
    · exact pushOrdered_pct (topPriorityBlock_sub h) hb
    · exact pushOrdered_pct (creatorAreasBlock_sub h) hb
  · intro m h0 b hb
    unfold tallyMapToResponses at h0 hb
    simp only at h0
    have hb2 := (List.perm_insertionSort countGe _).mem_iff.1 hb
    obtain ⟨p, hp, rfl⟩ := List.mem_map.1 (List.mem_filter.1 hb2).1
    simp only [h0]
    rw [if_neg (by omega)]

/-- Witness for C4 at a concrete one-row grid. -/
theorem c4_witness :
    (⟨cfgTitle .aiUsage, "multiple_choice",
        [⟨"Analyzing campaign results", 1, 100⟩], 1, none⟩ : Question)
      ∈ buildQuestionsFromHeadersAndRows [needleAiUsage] [["Analyzing campaign results"]]
          (fun _ => "r")
    ∧ (⟨"Analyzing campaign results", 1, 100⟩ : Bucket).percentage = pct 1 1 :=
  ⟨by decide,
   (c4_percentage_formula [needleAiUsage] [["Analyzing campaign results"]] (fun _ => "r")).1
     ⟨cfgTitle .aiUsage, "multiple_choice", [⟨"Analyzing campaign results", 1, 100⟩], 1, none⟩
     (by decide) ⟨"Analyzing campaign results", 1, 100⟩ (by decide)⟩

/-- C7 (amended): the bucket counts of a scale question sum exactly to its
respondent denominator; the single-choice questions do not satisfy this (see
the counterexample). -/
theorem c7_scale_sum (headers : List String) (rows : List (List String)) (ρ : Nat → String) :
    ∀ q ∈ buildQuestionsFromHeadersAndRows headers rows ρ, q.type = "scale" →
      ((q.responses.map fun b => b.count).sum) = q.total_responses := by
  intro q hq hty
  rcases build_mem hq with h | h | h | h | h | h
  · obtain ⟨-, -, -, ht, -⟩ := pushOrdered_mem (aiUsageBlock_sub h)
    rw [hty] at ht
    exact absurd ht.symm (by decide)
  · obtain ⟨total, -, -, ht, -⟩ := goToTool_mem h
    rw [hty] at ht
    exact absurd ht (by decide)
  · obtain ⟨t, n1, n2, n3, n4, n5, hsum, -, htot, -, -, -, hresp⟩ := confidence_mem h
    rw [hresp, htot, hsum]
    simp only [List.map_cons, List.map_nil, List.sum_cons, List.sum_nil]
    omega
  · obtain ⟨-, -, -, ht, -⟩ := pushOrdered_mem (curiosityBlock_sub h)
    rw [hty] at ht
    exact absurd ht.symm (by decide)
  · obtain ⟨-, -, -, ht, -⟩ := pushOrdered_mem (topPriorityBlock_sub h)
    rw [hty] at ht
    exact absurd ht.symm (by decide)
  · obtain ⟨-, -, -, ht, -⟩ := pushOrdered_mem (creatorAreasBlock_sub h)
    rw [hty] at ht
    exact absurd ht.symm (by decide)

/-- Counterexample to C7 as stated: a top-priority (single-choice) respondent
whose cell matches no canonical label contributes to the denominator but to no
bucket, so the bucket counts sum to 0 while `total_responses` is 1. -/
theorem c7_counterexample :
    ((buildQuestionsFromHeadersAndRows [needleTopPriority] [["blah"]] fun i => toString i).map
        fun q => (q.type, (q.responses.map fun b => b.count).sum, q.total_responses))
      = [("single_choice", 0, 1)] := by decide

/-- Witness for C7 on a concrete scale grid. -/
theorem c7_witness :
    (⟨cfgTitle .confidence ++ " (1–5)", "scale",
        [⟨"1", 0, 0⟩, ⟨"2", 0, 0⟩, ⟨"3", 1, 100⟩, ⟨"4", 0, 0⟩, ⟨"5", 0, 0⟩], 1, none⟩ : Question)
      ∈ buildQuestionsFromHeadersAndRows [needleConfidence] [["3"]] (fun _ => "r")
    ∧ (([⟨"1", 0, 0⟩, ⟨"2", 0, 0⟩, ⟨"3", 1, 100⟩, ⟨"4", 0, 0⟩,
        ⟨"5", 0, 0⟩] : List Bucket).map fun b => b.count).sum = 1 :=
  ⟨by decide,
   c7_scale_sum [needleConfidence] [["3"]] (fun _ => "r")
     ⟨cfgTitle .confidence ++ " (1–5)", "scale",
       [⟨"1", 0, 0⟩, ⟨"2", 0, 0⟩, ⟨"3", 1, 100⟩, ⟨"4", 0, 0⟩, ⟨"5", 0, 0⟩], 1, none⟩
     (by decide) rfl⟩
/-- C5 (amended): multi-select questions emit their non-Other buckets in
canonical list order (a sublist of the canonical order), not sorted by count;
the go-to-tool question emits its non-Other buckets in non-increasing count
order, with the grouped "Other" appended after them. -/
theorem c5_bucket_order (headers : List String) (rows : List (List String)) (ρ : Nat → String) :
    (∀ q ∈ aiUsageBlock headers rows ρ,
        List.Sublist ((q.responses.filter fun b => b.text ≠ "Other").map Bucket.text)
          orderAiUsage)
    ∧ (∀ q ∈ curiosityBlock headers rows ρ,
        List.Sublist ((q.responses.filter fun b => b.text ≠ "Other").map Bucket.text)
          orderCuriosity)
    ∧ (∀ q ∈ creatorAreasBlock headers rows ρ,
        List.Sublist ((q.responses.filter fun b => b.text ≠ "Other").map Bucket.text)
          orderCreatorAreas)
    ∧ (∀ q ∈ goToToolBlock headers rows ρ,
        (q.responses.filter fun b => b.text ≠ "Other").Pairwise countGe) := by
  refine ⟨?_, ?_, ?_, ?_⟩
  · intro q hq
    exact pushOrdered_nonOther_sublist (aiUsageBlock_sub hq) other_not_in_orderAiUsage
  · intro q hq
    exact pushOrdered_nonOther_sublist (curiosityBlock_sub hq) other_not_in_orderCuriosity
  · intro q hq
    exact pushOrdered_nonOther_sublist (creatorAreasBlock_sub hq) other_not_in_orderCreatorAreas
  · intro q hq
    obtain ⟨total, -, -, -, -, hresp | hresp⟩ := goToTool_mem hq
    · rw [hresp]
      refine List.Pairwise.sublist ?_
        (toolTallied_sorted rows (findHeaderIdx headers needleGoToTool) total)
      exact ((List.filter_sublist _).trans (List.filter_sublist _))
    · rw [hresp, List.filter_append]
      have h1 : (([⟨"Other",
          ((toolSmall rows (findHeaderIdx headers needleGoToTool) total).map
            fun b => b.count).sum,
          pct (((toolSmall rows (findHeaderIdx headers needleGoToTool) total).map
            fun b => b.count).sum) total⟩] : List Bucket).filter
            fun b => b.text ≠ "Other") = [] := by simp
      rw [h1, List.append_nil]
      refine List.Pairwise.sublist ?_
        (toolTallied_sorted rows (findHeaderIdx headers needleGoToTool) total)
      exact ((List.filter_sublist _).trans (List.filter_sublist _))

/-- Counterexample to C5 as stated: a multi-select question whose
higher-count canonical option comes later in the canonical list is emitted in
canonical order, not in descending count order. -/
theorem c5_counterexample :
    ((buildQuestionsFromHeadersAndRows [needleAiUsage]
        [["Drafting or reviewing creative briefs"], ["Analyzing campaign results"],
         ["Analyzing campaign results"]] fun i => toString i).map
      fun q => q.responses.map fun b => (b.text, b.count))
      = [[("Drafting or reviewing creative briefs", 1), ("Analyzing campaign results", 2)]]
    ∧ ¬ ∀ q ∈ buildQuestionsFromHeadersAndRows [needleAiUsage]
        [["Drafting or reviewing creative briefs"], ["Analyzing campaign results"],
         ["Analyzing campaign results"]] (fun i => toString i),
        (q.responses.filter fun b => b.text ≠ "Other").Pairwise countGe := by
  constructor
  · decide
  · decide

/-- Witness for C5 on a concrete multi-select grid. -/
theorem c5_witness :
    (⟨cfgTitle .aiUsage, "multiple_choice",
        [⟨"Analyzing campaign results", 1, 100⟩], 1, none⟩ : Question)
      ∈ aiUsageBlock [needleAiUsage] [["Analyzing campaign results"]] (fun _ => "r")
    ∧ List.Sublist ((([⟨"Analyzing campaign results", 1, 100⟩] : List Bucket).filter
        fun b => b.text ≠ "Other").map Bucket.text) orderAiUsage :=
  ⟨by decide,
   (c5_bucket_order [needleAiUsage] [["Analyzing campaign results"]] (fun _ => "r")).1
     ⟨cfgTitle .aiUsage, "multiple_choice", [⟨"Analyzing campaign results", 1, 100⟩], 1, none⟩
     (by decide)⟩

/-- C6 (amended): if an "Other" bucket is present in a question of the
output, it is the last element of the response list of that question — provided
that, for the free-text go-to-tool question, no respondent item normalises to
the literal label "Other" (a respondent typing "other" defeats the rule, see
the counterexample). -/
theorem c6_other_last (headers : List String) (rows : List (List String)) (ρ : Nat → String)
    (hg : ∀ p ∈ goToToolMap rows (findHeaderIdx headers needleGoToTool), p.1 ≠ "Other") :
    ∀ q ∈ buildQuestionsFromHeadersAndRows headers rows ρ,
      ∀ b ∈ q.responses, b.text = "Other" → q.responses.getLast? = some b := by
  intro q hq b hb hbt
  rcases build_mem hq with h | h | h | h | h | h
  · exact pushOrdered_other_last (aiUsageBlock_sub h) other_not_in_orderAiUsage hb hbt
  · obtain ⟨total, -, -, -, -, hresp | hresp⟩ := goToTool_mem h
    · rw [hresp] at hb
      obtain ⟨p, hp, rfl⟩ := toolTallied_mem (List.mem_filter.1 hb).1
      exact absurd hbt (hg p hp)
    · rw [hresp] at hb ⊢
      rcases List.mem_append.1 hb with hb1 | hb2
      · obtain ⟨p, hp, rfl⟩ := toolTallied_mem (List.mem_filter.1 hb1).1
        exact absurd hbt (hg p hp)
      · rcases List.mem_singleton.1 hb2 with rfl
        exact List.getLast?_concat _
  · obtain ⟨t, n1, n2, n3, n4, n5, -, -, -, -, -, -, hresp⟩ := confidence_mem h
    rw [hresp] at hb
    simp only [List.mem_cons, List.not_mem_nil, or_false] at hb
    rcases hb with rfl | rfl | rfl | rfl | rfl <;> exact absurd hbt (by simp)
  · exact pushOrdered_other_last (curiosityBlock_sub h) other_not_in_orderCuriosity hb hbt
  · exact pushOrdered_other_last (topPriorityBlock_sub h) other_not_in_orderTopPriority hb hbt
  · exact pushOrdered_other_last (creatorAreasBlock_sub h) other_not_in_orderCreatorAreas hb hbt

/-- Counterexample to C6 as stated: in the go-to-tool question, respondents
answering literally "other" are normalised to the ad-hoc label "Other", which
is then sorted by count like any tool and can precede other buckets. -/
theorem c6_counterexample :
    ((buildQuestionsFromHeadersAndRows [needleGoToTool] [["other"], ["other"], ["claude"]]
        fun i => toString i).map fun q => q.responses.map fun b => b.text)
      = [["Other", "Claude"]]
    ∧ ¬ ∀ q ∈ buildQuestionsFromHeadersAndRows [needleGoToTool]
          [["other"], ["other"], ["claude"]] (fun i => toString i),
        ∀ b ∈ q.responses, b.text = "Other" → q.responses.getLast? = some b := by
  constructor
  · decide
  · decide

/-- Witness for C6: a grid whose go-to-tool answers never normalise to
"Other"; the grouped Other bucket is last. -/
theorem c6_witness :
    (∀ p ∈ goToToolMap (List.replicate 10 ["claude"] ++ [["zz"]])
        (findHeaderIdx [needleGoToTool] needleGoToTool), p.1 ≠ "Other")
    ∧ (⟨cfgTitle .goToTool, "single_choice",
        [⟨"Claude", 10, 91⟩, ⟨"Other", 1, 9⟩], 11, some "Zz"⟩ : Question)
      ∈ buildQuestionsFromHeadersAndRows [needleGoToTool]
          (List.replicate 10 ["claude"] ++ [["zz"]]) (fun i => toString i)
    ∧ ([⟨"Claude", 10, 91⟩, ⟨"Other", 1, 9⟩] : List Bucket).getLast?
        = some ⟨"Other", 1, 9⟩ :=
  ⟨by decide, by decide,
   c6_other_last [needleGoToTool] (List.replicate 10 ["claude"] ++ [["zz"]])
     (fun i => toString i) (by decide)
     ⟨cfgTitle .goToTool, "single_choice",
       [⟨"Claude", 10, 91⟩, ⟨"Other", 1, 9⟩], 11, some "Zz"⟩ (by decide)
     ⟨"Other", 1, 9⟩ (by decide) rfl⟩

/-- C8: the code, run on the scenario given in the spec, matches the claim; but a
numeric, in-range, non-integer cell such as "2.5" creates an ad-hoc map key
holding `NaN` (`undefined + 1`), the bucket-sum total becomes `NaN`, and the
whole confidence question is dropped — contradicting the claim (and §7 of the
spec: a bad cell must be skipped per-cell, never abort the question). -/
theorem c8_nan_poisoning :
    confidenceBlock [needleConfidence] [["3"], ["2.5"]] = []
    ∧ (confidenceBlock [needleConfidence]
          [["1"], ["3"], ["3"], ["7"], ["abc"], ["5"]]).map
        (fun q => (q.total_responses, q.responses.map fun b => (b.text, b.count, b.percentage)))
      = [(4, [("1", 1, 25), ("2", 0, 0), ("3", 2, 50), ("4", 0, 0), ("5", 1, 25)])] := by
  constructor
  · decide
  · decide
theorem getCell_neg {r : List String} {c : Int} (hc : c < 0) : getCell r c = "" := by
  rw [getCell, rowGet, if_pos hc]
  rfl

/-- The tallied count of any label is bounded by the respondent denominator,
whenever the per-row keys of the column are pairwise distinct. -/
theorem multi_counts_le_answered (rows : List (List String)) (c ridx : Int)
    (ρ : Nat → String) (order : List String) (horder : ∀ o ∈ order, o ≠ "")
    (hnd : (keyList rows c ridx ρ).Nodup) (label : String) :
    lookupD (multiTally rows c order).counts label 0 ≤ answeredCount rows c ridx ρ := by
  rw [multiTally_counts]
  by_cases hc : c < 0
  · have h0 : rows.countP (fun r =>
        decide (label ∈ (matchCanonicalOptions (getCell r c) order).hits)) = 0 := by
      rw [List.countP_eq_zero]
      intro r hr
      simp only [decide_eq_true_eq]
      intro hhit
      exact (hits_ne_of_mem horder hhit) (getCell_neg hc)
    rw [h0]
    exact Nat.zero_le _
  · rw [answeredCount_of_nodup rows c ridx ρ hc hnd]
    refine List.countP_mono_left ?_
    intro r hr
    simp only [decide_eq_true_eq]
    intro hhit
    exact hits_ne_of_mem horder hhit

theorem orderAiUsage_ne_empty : ∀ o ∈ orderAiUsage, o ≠ "" := by decide

theorem orderCuriosity_ne_empty : ∀ o ∈ orderCuriosity, o ≠ "" := by decide

theorem orderCreatorAreas_ne_empty : ∀ o ∈ orderCreatorAreas, o ≠ "" := by decide

/-- C2 (amended): within one row a canonical option is counted at most once
(the per-row hit set is duplicate-free); and whenever the per-row respondent
keys of a multi-select column are pairwise distinct — in particular whenever
no two rows share a respondent id — no canonical bucket count of the
corresponding question exceeds its respondent denominator.  With duplicated
respondent ids the bound fails (see the counterexample). -/
theorem c2_option_count_bound (headers : List String) (rows : List (List String))
    (ρ : Nat → String)
    (hkeys : ∀ needle ∈ [needleAiUsage, needleCuriosity, needleCreatorAreas],
      (keyList rows (findHeaderIdx headers needle) (findRespondentIdIndex headers) ρ).Nodup) :
    (∀ (answer : String) (order : List String), (matchCanonicalOptions answer order).hits.Nodup)
    ∧ ∀ q ∈ buildQuestionsFromHeadersAndRows headers rows ρ, q.type = "multiple_choice" →
        ∀ b ∈ q.responses, b.text ≠ "Other" → b.count ≤ q.total_responses := by
  refine ⟨hits_nodup, ?_⟩
  intro q hq hty b hb hbt
  rcases build_mem hq with h | h | h | h | h | h
  · exact pushOrdered_count_le (aiUsageBlock_sub h)
      (multi_counts_le_answered rows (findHeaderIdx headers needleAiUsage)
        (findRespondentIdIndex headers) ρ orderAiUsage orderAiUsage_ne_empty
        (hkeys needleAiUsage (by simp))) hb hbt
  · obtain ⟨total, -, -, ht, -⟩ := goToTool_mem h
    rw [hty] at ht
    exact absurd ht (by decide)
  · obtain ⟨t, n1, n2, n3, n4, n5, -, -, -, ht, -⟩ := confidence_mem h
    rw [hty] at ht
    exact absurd ht.symm (by decide)
  · exact pushOrdered_count_le (curiosityBlock_sub h)
      (multi_counts_le_answered rows (findHeaderIdx headers needleCuriosity)
        (findRespondentIdIndex headers) ρ orderCuriosity orderCuriosity_ne_empty
        (hkeys needleCuriosity (by simp))) hb hbt
  · obtain ⟨-, -, -, ht, -⟩ := pushOrdered_mem (topPriorityBlock_sub h)
    rw [hty] at ht
    exact absurd ht.symm (by decide)
  · exact pushOrdered_count_le (creatorAreasBlock_sub h)
      (multi_counts_le_answered rows (findHeaderIdx headers needleCreatorAreas)
        (findRespondentIdIndex headers) ρ orderCreatorAreas orderCreatorAreas_ne_empty
        (hkeys needleCreatorAreas (by simp))) hb hbt

/-- Counterexample to C2 as stated: two rows sharing the respondent id "r1"
both increment the option, while the denominator deduplicates them, so the
option count (2) exceeds the denominator (1). -/
theorem c2_counterexample :
    ((buildQuestionsFromHeadersAndRows ["Respondent ID", needleAiUsage]
        [["r1", "Analyzing campaign results"], ["r1", "Analyzing campaign results"]]
        fun i => toString i).map
      fun q => (q.total_responses, q.responses.map fun b => (b.text, b.count)))
      = [(1, [("Analyzing campaign results", 2)])] := by decide

/-- Witness for C2 at a concrete grid with distinct row keys. -/
theorem c2_witness :
    (∀ needle ∈ [needleAiUsage, needleCuriosity, needleCreatorAreas],
      (keyList [["Analyzing campaign results"], ["Analyzing campaign results"]]
        (findHeaderIdx [needleAiUsage] needle) (findRespondentIdIndex [needleAiUsage])
        (fun i => toString i)).Nodup)
    ∧ (⟨cfgTitle .aiUsage, "multiple_choice",
        [⟨"Analyzing campaign results", 2, 100⟩], 2, none⟩ : Question)
      ∈ buildQuestionsFromHeadersAndRows [needleAiUsage]
          [["Analyzing campaign results"], ["Analyzing campaign results"]] (fun i => toString i)
    ∧ (⟨"Analyzing campaign results", 2, 100⟩ : Bucket).count
        ≤ (⟨cfgTitle .aiUsage, "multiple_choice",
            [⟨"Analyzing campaign results", 2, 100⟩], 2, none⟩ : Question).total_responses :=
  ⟨by decide, by decide,
   (c2_option_count_bound [needleAiUsage]
      [["Analyzing campaign results"], ["Analyzing campaign results"]]
      (fun i => toString i) (by decide)).2
     ⟨cfgTitle .aiUsage, "multiple_choice", [⟨"Analyzing campaign results", 2, 100⟩], 2, none⟩
     (by decide) rfl ⟨"Analyzing campaign results", 2, 100⟩ (by decide) (by decide)⟩
theorem cleanOneOther_some_ne {a s : String} (h : cleanOneOther a = some s) : s ≠ "" := by
  simp only [cleanOneOther] at h
  split at h
  · cases h
  · split at h
    · cases h
    · split at h
      case isTrue hcond =>
        rcases Option.some.inj h with rfl
        simp only [Bool.and_eq_true, decide_eq_true_eq] at hcond
        exact hcond.1
      case isFalse => cases h

theorem cleanOtherTextList_ne (l : List String) : ∀ s ∈ cleanOtherTextList l, s ≠ "" := by
  intro s hs
  rw [cleanOtherTextList, jsDedup_mem] at hs
  obtain ⟨a, -, ha⟩ := List.mem_filterMap.1 hs
  exact cleanOneOther_some_ne ha

/-- The "Other" bucket of a pushed question counts exactly the entries of the
(cleaned, all-nonempty) verbatim list. -/
theorem pushOrdered_other_count {cfgKey : CfgKey} {m : List (String × Nat)}
    {others : List String} {total : Nat} {order : List String} {q : Question}
    (hq : q ∈ pushOrderedWithOther cfgKey m others total order)
    (hne : ∀ s ∈ others, s ≠ "") (hOther : "Other" ∉ order)
    {b : Bucket} (hb : b ∈ q.responses) (hbt : b.text = "Other") :
    b.count = others.length := by
  have hfilter : others.filter (fun s => s ≠ "") = others :=
    List.filter_eq_self.2 (by intro a ha; simpa using hne a ha)
  obtain ⟨-, -, -, -, hresp | hresp⟩ := pushOrdered_mem hq
  · rw [hresp.2] at hb
    have := (orderedResponses_mem hb).1
    rw [hbt] at this
    exact absurd this hOther
  · rw [hresp.2] at hb
    rcases List.mem_append.1 hb with hb1 | hb2
    · have := (orderedResponses_mem hb1).1
      rw [hbt] at this
      exact absurd this hOther
    · rcases List.mem_singleton.1 hb2 with rfl
      simpa using congrArg List.length hfilter

/-- C1 (amended): the "Other" bucket of a multi-select question counts the
number of *distinct cleaned leftover fragments* collected across all
respondents — a duplicate-free set of fragments (fourth conjunct), gathered
row by row (fifth conjunct) — not the number of respondents with leftover
text: one respondent can contribute several fragments, and equal fragments
from different respondents collapse into one. -/
theorem c1_other_distinct_fragments (headers : List String) (rows : List (List String))
    (ρ : Nat → String) :
    (∀ q ∈ aiUsageBlock headers rows ρ, ∀ b ∈ q.responses, b.text = "Other" →
      b.count = (jsDedup (((multiTally rows (findHeaderIdx headers needleAiUsage)
          orderAiUsage).others).filterMap cleanOneOther)).length)
    ∧ (∀ q ∈ curiosityBlock headers rows ρ, ∀ b ∈ q.responses, b.text = "Other" →
      b.count = (jsDedup (((multiTally rows (findHeaderIdx headers needleCuriosity)
          orderCuriosity).others).filterMap cleanOneOther)).length)
    ∧ (∀ q ∈ creatorAreasBlock headers rows ρ, ∀ b ∈ q.responses, b.text = "Other" →
      b.count = (jsDedup (((multiTally rows (findHeaderIdx headers needleCreatorAreas)
          orderCreatorAreas).others).filterMap cleanOneOther)).length)
    ∧ (∀ l : List String, (jsDedup (l.filterMap cleanOneOther)).Nodup
        ∧ ∀ s, s ∈ jsDedup (l.filterMap cleanOneOther) ↔ s ∈ l.filterMap cleanOneOther)
    ∧ (∀ (c : Int) (order : List String), (multiTally rows c order).others
        = rows.flatMap fun r => (matchCanonicalOptions (getCell r c) order).leftovers) := by
  refine ⟨?_, ?_, ?_, ?_, multiTally_others rows⟩
  · intro q hq b hb hbt
    exact pushOrdered_other_count (aiUsageBlock_sub hq) (cleanOtherTextList_ne _)
      other_not_in_orderAiUsage hb hbt
  · intro q hq b hb hbt
    exact pushOrdered_other_count (curiosityBlock_sub hq) (cleanOtherTextList_ne _)
      other_not_in_orderCuriosity hb hbt
  · intro q hq b hb hbt
    exact pushOrdered_other_count (creatorAreasBlock_sub hq) (cleanOtherTextList_ne _)
      other_not_in_orderCreatorAreas hb hbt
  · intro l
    exact ⟨jsDedup_nodup _, jsDedup_mem _⟩

/-- Counterexample to C1 as stated: one respondent whose cell "zzfoo, zzbar"
yields two distinct leftover fragments contributes 2 to the "Other" count,
though only 1 respondent had leftover text. -/
theorem c1_counterexample :
    ((buildQuestionsFromHeadersAndRows [needleAiUsage] [["zzfoo, zzbar"]]
        fun i => toString i).map
      fun q => (q.responses.filter fun b => b.text = "Other").map fun b => b.count)
      = [[2]]
    ∧ specRespondentsWithLeftoverText [["zzfoo, zzbar"]] 0 orderAiUsage = 1 := by
  constructor
  · decide
  · decide

/-- Witness for C1 at the two-fragment grid. -/
theorem c1_witness :
    (⟨cfgTitle .aiUsage, "multiple_choice", [⟨"Other", 2, 200⟩], 1,
        some "zzfoo, zzbar"⟩ : Question)
      ∈ aiUsageBlock [needleAiUsage] [["zzfoo, zzbar"]] (fun i => toString i)
    ∧ (⟨"Other", 2, 200⟩ : Bucket).count
        = (jsDedup (((multiTally [["zzfoo, zzbar"]]
            (findHeaderIdx [needleAiUsage] needleAiUsage) orderAiUsage).others).filterMap
          cleanOneOther)).length :=
  ⟨by decide,
   (c1_other_distinct_fragments [needleAiUsage] [["zzfoo, zzbar"]] (fun i => toString i)).1
     ⟨cfgTitle .aiUsage, "multiple_choice", [⟨"Other", 2, 200⟩], 1, some "zzfoo, zzbar"⟩
     (by decide) ⟨"Other", 2, 200⟩ (by decide) rfl⟩

/-- C3 (amended): when the sheet has no respondent-id column (the respondent
index is negative, so every answering row receives a fresh random key), the
emitted denominator equals the count of rows with a non-empty trimmed cell;
with a respondent-id column the denominator counts distinct ids instead (see
the counterexample). -/
theorem c3_denominator_no_id_column (rows : List (List String)) (c : Int) (ρ : Nat → String)
    (hinj : Function.Injective ρ) (hc : ¬ c < 0) :
    answeredCount rows c (-1) ρ = countNonEmpty rows c := by
  rw [answeredCount_of_nodup rows c (-1) ρ hc
    (keyList_nodup_of_neg rows c (-1) ρ (by omega) hinj), countNonEmpty_eq]

/-- Counterexample to C3 as stated: with a respondent-id column, two
answering rows sharing the id "r1" are deduplicated: `total_responses` is 1
though 2 rows have a non-empty cell in the question column. -/
theorem c3_counterexample :
    ((buildQuestionsFromHeadersAndRows ["Respondent ID", needleAiUsage]
        [["r1", "Analyzing campaign results"], ["r1", "Analyzing campaign results"]]
        fun i => toString i).map fun q => q.total_responses)
      = [1]
    ∧ countNonEmpty [["r1", "Analyzing campaign results"],
        ["r1", "Analyzing campaign results"]] 1 = 2 := by
  constructor
  · decide
  · decide

def rhoA : Nat → String := fun i => ⟨List.replicate i 'a'⟩

def rhoB : Nat → String := fun i => ⟨List.replicate i 'b'⟩

theorem rhoA_inj : Function.Injective rhoA := by
  intro a b h
  have := congrArg (fun s => s.data.length) h
  simpa [rhoA] using this

theorem rhoB_inj : Function.Injective rhoB := by
  intro a b h
  have := congrArg (fun s => s.data.length) h
  simpa [rhoB] using this

/-- Witness for C3 at a concrete grid without a respondent-id column. -/
theorem c3_witness :
    Function.Injective rhoA
    ∧ ¬ ((0 : Int) < 0)
    ∧ answeredCount [["x"], [""], ["y"]] 0 (-1) rhoA = countNonEmpty [["x"], [""], ["y"]] 0 :=
  ⟨rhoA_inj, by decide, c3_denominator_no_id_column [["x"], [""], ["y"]] 0 rhoA rhoA_inj (by decide)⟩

theorem row_key_ne_rid (s : String) : "__row_" ++ s ≠ "" := by
  intro h
  have hd : ("__row_" ++ s).data = "".data := congrArg String.data h
  have h2 : "__row_".data ++ s.data = [] := hd
  rcases List.append_eq_nil.1 h2 with ⟨h3, -⟩
  exact absurd h3 (by decide)

/-- Any injective draw sequence is fresh for a grid with no respondent-id
column. -/
theorem freshKeys_of_neg (rows : List (List String)) (ridx : Int) (hneg : ridx < 0)
    (ρ : Nat → String) (hinj : Function.Injective ρ) : FreshKeys rows ridx ρ := by
  refine ⟨hinj, ?_⟩
  intro i r hr
  rw [ridOf, if_neg (by omega)]
  exact row_key_ne_rid (ρ i)

/-- C9: the aggregation is deterministic in the grid — the only
nondeterminism in the source is the `Math.random()` respondent key for rows
without an id, and any two draw sequences that are almost-surely well-behaved
(pairwise distinct, not colliding with an id cell) give identical output:
question list, bucket order, counts, percentages and verbatim text. -/
theorem c9_deterministic (headers : List String) (rows : List (List String))
    (ρ₁ ρ₂ : Nat → String) (h₁ : FreshKeys rows (findRespondentIdIndex headers) ρ₁)
    (h₂ : FreshKeys rows (findRespondentIdIndex headers) ρ₂) :
    buildQuestionsFromHeadersAndRows headers rows ρ₁
      = buildQuestionsFromHeadersAndRows headers rows ρ₂ := by
  have hAC := answeredCount_rho_eq h₁ h₂
  simp only [buildQuestionsFromHeadersAndRows, aiUsageBlock, goToToolBlock, confidenceBlock,
    curiosityBlock, topPriorityBlock, creatorAreasBlock, hAC]

/-- Witness for C9: two different draw sequences on a concrete grid. -/
theorem c9_witness :
    FreshKeys [["Analyzing campaign results"]] (findRespondentIdIndex [needleAiUsage]) rhoA
    ∧ FreshKeys [["Analyzing campaign results"]] (findRespondentIdIndex [needleAiUsage]) rhoB
    ∧ buildQuestionsFromHeadersAndRows [needleAiUsage] [["Analyzing campaign results"]] rhoA
      = buildQuestionsFromHeadersAndRows [needleAiUsage] [["Analyzing campaign results"]] rhoB :=
  ⟨freshKeys_of_neg _ _ (by decide) rhoA rhoA_inj,
   freshKeys_of_neg _ _ (by decide) rhoB rhoB_inj,
   c9_deterministic [needleAiUsage] [["Analyzing campaign results"]] rhoA rhoB
     (freshKeys_of_neg _ _ (by decide) rhoA rhoA_inj)
     (freshKeys_of_neg _ _ (by decide) rhoB rhoB_inj)⟩
end Survey
